import Mathlib

/-!
Verification of the catalog selection engine
(`src/meltano/core/plugin/singer/catalog.py`).

The development shallowly embeds the Python module:
* `JVal` models the JSON-like catalog documents (Python dicts keep
  insertion order, so objects are ordered association lists).
* `globMatch` / `fnmatch` model Python's `fnmatch.fnmatch` (POSIX
  `normcase` is the identity; `translate` produces a DOTALL, fully
  anchored regex, so `*` and `?` also match `.`, `/` and newlines).
* the `SelectExecutor` handlers are embedded as pure functions over an
  explicit executor state; Python's `self._stream` alias is modelled by
  keeping the current stream's name and metadata list in the state.
* the generic `visit` traversal is embedded as a fuel-indexed
  interpreter `visitV`.
-/

namespace Catalog

/-- Python exception classes that the embedded code can raise.
`keyError` models `KeyError` (caught by `CatalogExecutor.execute`),
`typeError` stands for the other, uncaught runtime errors
(`TypeError` / `AttributeError`), and `fuel` is interpreter
fuel exhaustion (never reached with adequate fuel). -/
inductive PErr where
  | keyError
  | typeError
  | fuel
deriving DecidableEq, Repr

/-- JSON-like document values.  Python dicts preserve insertion order and
have unique keys, hence ordered association lists. -/
inductive JVal where
  | str (s : String)
  | bool (b : Bool)
  | obj (fields : List (String × JVal))
  | arr (items : List JVal)
deriving Repr

mutual

/-- Structural equality of values (Python `==` on str/bool/list/dict trees;
`"x" == True` and `"x" == []` are `False` in Python, matching the
constructor mismatch cases). -/
def jvalBEq : JVal → JVal → Bool
  | .str a, .str b => a == b
  | .bool a, .bool b => a == b
  | .obj a, .obj b => jvalFieldsBEq a b
  | .arr a, .arr b => jvalListBEq a b
  | _, _ => false

def jvalFieldsBEq : List (String × JVal) → List (String × JVal) → Bool
  | [], [] => true
  | (k, v) :: rest, (k', v') :: rest' =>
      k == k' && jvalBEq v v' && jvalFieldsBEq rest rest'
  | _, _ => false

def jvalListBEq : List JVal → List JVal → Bool
  | [], [] => true
  | v :: rest, v' :: rest' => jvalBEq v v' && jvalListBEq rest rest'
  | _, _ => false

end

instance : BEq JVal := ⟨jvalBEq⟩

mutual

theorem jvalBEq_eq : ∀ a b : JVal, jvalBEq a b = true → a = b
  | .str a, .str b, h => by
      simp only [jvalBEq] at h; exact congrArg JVal.str (by simpa using h)
  | .bool a, .bool b, h => by
      simp only [jvalBEq] at h; exact congrArg JVal.bool (by simpa using h)
  | .obj a, .obj b, h => by
      simp only [jvalBEq] at h
      exact congrArg JVal.obj (jvalFieldsBEq_eq a b h)
  | .arr a, .arr b, h => by
      simp only [jvalBEq] at h
      exact congrArg JVal.arr (jvalListBEq_eq a b h)

theorem jvalFieldsBEq_eq : ∀ a b : List (String × JVal), jvalFieldsBEq a b = true → a = b
  | [], [], _ => rfl
  | (k, v) :: rest, (k', v') :: rest', h => by
      simp only [jvalFieldsBEq, Bool.and_eq_true] at h
      obtain ⟨⟨hk, hv⟩, hrest⟩ := h
      have hk' : k = k' := by simpa using hk
      have := jvalBEq_eq v v' hv
      have := jvalFieldsBEq_eq rest rest' hrest
      subst hk'; simp_all

theorem jvalListBEq_eq : ∀ a b : List JVal, jvalListBEq a b = true → a = b
  | [], [], _ => rfl
  | v :: rest, v' :: rest', h => by
      simp only [jvalListBEq, Bool.and_eq_true] at h
      obtain ⟨hv, hrest⟩ := h
      have := jvalBEq_eq v v' hv
      have := jvalListBEq_eq rest rest' hrest
      simp_all

end

mutual

theorem jvalBEq_refl : ∀ a : JVal, jvalBEq a a = true
  | .str a => by simp [jvalBEq]
  | .bool a => by simp [jvalBEq]
  | .obj a => by simp only [jvalBEq]; exact jvalFieldsBEq_refl a
  | .arr a => by simp only [jvalBEq]; exact jvalListBEq_refl a

theorem jvalFieldsBEq_refl : ∀ a : List (String × JVal), jvalFieldsBEq a a = true
  | [] => rfl
  | (k, v) :: rest => by
      simp only [jvalFieldsBEq, Bool.and_eq_true]
      exact ⟨⟨by simp, jvalBEq_refl v⟩, jvalFieldsBEq_refl rest⟩

theorem jvalListBEq_refl : ∀ a : List JVal, jvalListBEq a a = true
  | [] => rfl
  | v :: rest => by
      simp only [jvalListBEq, Bool.and_eq_true]
      exact ⟨jvalBEq_refl v, jvalListBEq_refl rest⟩

end

instance : DecidableEq JVal := fun a b =>
  if h : jvalBEq a b = true then .isTrue (jvalBEq_eq a b h)
  else .isFalse (fun he => h (he ▸ jvalBEq_refl a))

instance {ε α : Type} [DecidableEq ε] [DecidableEq α] : DecidableEq (Except ε α) := by
  intro a b
  cases a <;> cases b
  case ok.ok x y =>
    exact if h : x = y then .isTrue (by rw [h]) else .isFalse (by simp [h])
  case error.error e f =>
    exact if h : e = f then .isTrue (by rw [h]) else .isFalse (by simp [h])
  case ok.error => exact .isFalse (by simp)
  case error.ok => exact .isFalse (by simp)

/-- Python `dict.get`-style lookup: the value of the first (unique) binding. -/
def jlookup : List (String × JVal) → String → Option JVal
  | [], _ => none
  | (k, v) :: rest, key => if k = key then some v else jlookup rest key

/-- Python `d[k] = v`: replace in place if the key exists, else append at the
end (insertion order semantics of Python dicts). -/
def objSet : List (String × JVal) → String → JVal → List (String × JVal)
  | [], k, v => [(k, v)]
  | (k', v') :: rest, k, v =>
      if k' = k then (k, v) :: rest else (k', v') :: objSet rest k v

/-- Python `k in d`. -/
def hasKey (v : JVal) (k : String) : Bool :=
  match v with
  | .obj fs => (jlookup fs k).isSome
  | _ => false

/-! ## `fnmatch` (Python's glob matching)

`fnmatch.fnmatch(name, pat)` normcases both (identity on POSIX) and then
fully matches `name` against the regex produced by `fnmatch.translate(pat)`:
`*` ↦ `.*`, `?` ↦ `.`, `[...]` ↦ a regex character class (with `!` for
negation, a leading `]` taken literally, and an unterminated `[` taken
literally), everything else escaped, the whole wrapped in `(?s:...)\Z`
(DOTALL, anchored).  Character-class ranges `a-b` with `a > b` match no
character here (CPython would raise on compiling such a class; no claim
exercises that corner). -/

/-- Split a character-class body at the first `]`: returns the class
content and the remaining pattern, or `none` when the class is
unterminated. -/
def splitClose : List Char → Option (List Char × List Char)
  | [] => none
  | ']' :: rest => some ([], rest)
  | c :: rest => (splitClose rest).map (fun p => (c :: p.1, p.2))

theorem splitClose_length :
    ∀ l s r, splitClose l = some (s, r) → r.length < l.length := by
  intro l
  induction l with
  | nil => intro s r h; simp [splitClose] at h
  | cons c rest ih =>
    intro s r h
    by_cases hc : c = ']'
    · subst hc
      simp only [splitClose] at h
      cases h
      simp
    · rw [show splitClose (c :: rest) =
            (splitClose rest).map (fun p => (c :: p.1, p.2)) from by
          rw [splitClose.eq_def]; split <;> simp_all] at h
      cases hs : splitClose rest with
      | none => rw [hs] at h; simp at h
      | some p =>
        rw [hs] at h
        simp only [Option.map, Option.some.injEq] at h
        cases h
        have := ih p.1 p.2 (by simpa using hs)
        simpa using Nat.lt_succ_of_lt this


/-- Class content parsed into inclusive ranges; a single character `c`
is the range `(c, c)`.  This is the regex character-class reading of the
content: `a-b` between two characters is a range, `-` at the edges is
literal. -/
def classItems : List Char → List (Char × Char)
  | a :: '-' :: b :: rest => (a, b) :: classItems rest
  | a :: rest => (a, a) :: classItems rest
  | [] => []

/-- Does character `c` fall in one of the class ranges? -/
def classHit (c : Char) (items : List (Char × Char)) : Bool :=
  items.any fun r => r.1 ≤ c && c ≤ r.2

/-- Parse the remainder of a pattern after `[`: negation flag, class
ranges and the rest of the pattern.  `none` models an unterminated class
(the `[` is then matched literally). -/
def parseClass (ps : List Char) : Option (Bool × List (Char × Char) × List Char) :=
  let neg := match ps with | '!' :: _ => true | _ => false
  let ps₁ := match ps with | '!' :: r => r | _ => ps
  match ps₁ with
  | ']' :: r₂ =>
      match splitClose r₂ with
      | some (stuff, rest) => some (neg, classItems (']' :: stuff), rest)
      | none => none
  | _ =>
      match splitClose ps₁ with
      | some (stuff, rest) => some (neg, classItems stuff, rest)
      | none => none

theorem parseClass_length :
    ∀ ps n it rest, parseClass ps = some (n, it, rest) → rest.length < ps.length + 1 := by
  intro ps n it rest h
  simp only [parseClass] at h
  split at h
  · next heq =>
    cases hs : splitClose _ with
    | none => rw [hs] at h; simp at h
    | some p =>
      rw [hs] at h
      cases p with
      | mk stuff rest' =>
      simp only at h
      cases h
      have hlt := splitClose_length _ _ _ hs
      -- rest' is shorter than the list after the (optional) '!' and ']'
      have : rest.length < ps.length + 1 := by
        split at heq <;> simp_all <;> omega
      exact this
  · cases hs : splitClose _ with
    | none => rw [hs] at h; simp at h
    | some p =>
      rw [hs] at h
      cases p with
      | mk stuff rest' =>
      simp only at h
      cases h
      have hlt := splitClose_length _ _ _ hs
      have : rest.length < ps.length + 1 := by
        split at hlt <;> simp_all <;> omega
      exact this

/-- The core glob matcher, fuel-indexed so that it is structurally
recursive (every recursive call strictly decreases `p.length + s.length`,
which `parseClass_length` guarantees for the class case, so the fuel
`p.length + s.length + 1` used by `globMatch` never runs out). -/
def globAux : Nat → List Char → List Char → Bool
  | 0, _, _ => false
  | fuel + 1, p, s =>
    match p with
    | [] => s.isEmpty
    | '*' :: ps =>
        globAux fuel ps s ||
          (match s with
           | [] => false
           | _ :: cs => globAux fuel ('*' :: ps) cs)
    | '?' :: ps =>
        match s with
        | [] => false
        | _ :: cs => globAux fuel ps cs
    | '[' :: ps =>
        match parseClass ps with
        | some (neg, items, rest) =>
            match s with
            | [] => false
            | c :: cs => (classHit c items != neg) && globAux fuel rest cs
        | none =>
            match s with
            | [] => false
            | c :: cs => (c == '[') && globAux fuel ps cs
    | c :: ps =>
        match s with
        | [] => false
        | c' :: cs => (c == c') && globAux fuel ps cs

/-- Does the DOTALL-anchored regex translation of pattern `p` match all
of `s`? -/
def globMatch (p s : List Char) : Bool :=
  globAux (p.length + s.length + 1) p s

/-- `fnmatch.fnmatch(name, pat)` (POSIX `normcase` is the identity). -/
def fnmatch (name pat : String) : Bool :=
  globMatch pat.data name.data

/-! ## Select patterns -/

/-- `SelectPattern = namedtuple("SelectPattern", (stream_pattern, property_pattern, negated))`. -/
structure SelectPattern where
  stream_pattern : String
  property_pattern : String
  negated : Bool
deriving DecidableEq, Repr

/-- Python `str.split(".")`. -/
def splitDots : List Char → List String
  | [] => [""]
  | c :: rest =>
    let r := splitDots rest
    if c = '.' then "" :: r
    else
      match r with
      | h :: t => String.mk (c :: h.data) :: t
      | [] => [String.mk [c]]

/-- `parse_select_pattern`: strip a leading `!` (setting `negated`), the
stream pattern is the text before the first `.`, the property pattern is
the whole remainder. -/
def parseSelectPattern (pattern : String) : SelectPattern :=
  let negated := match pattern.data with | '!' :: _ => true | _ => false
  let p := match pattern.data with | '!' :: rest => rest | _ => pattern.data
  { stream_pattern := (splitDots p).headD ""
    property_pattern := String.mk p
    negated := negated }

/-- `SelectExecutor._match_patterns(value, include, exclude)`:
included and not excluded. -/
def matchPatterns (value : String) (inc exc : List String) : Bool :=
  (inc.any fun pattern => fnmatch value pattern) &&
    !(exc.any fun pattern => fnmatch value pattern)

/-- `_match_patterns` applied to an arbitrary value, as Python evaluates
it: with both pattern generators empty, `any` never calls `fnmatch`, so a
non-string value goes unnoticed; otherwise `fnmatch` (via
`os.path.normcase`) raises `TypeError` on a non-string. -/
def matchPatternsV (value : JVal) (inc exc : List String) : Except PErr Bool :=
  match value with
  | .str s => .ok (matchPatterns s inc exc)
  | _ => if inc.isEmpty && exc.isEmpty then .ok false else .error .typeError

/-- `SelectExecutor.stream_match_patterns`: only the stream patterns of
the non-negated rules are used as includes; no excludes. -/
def streamMatchPatterns (pats : List SelectPattern) (stream : String) : Bool :=
  matchPatterns stream
    ((pats.filter fun p => !p.negated).map (·.stream_pattern)) []

def streamMatchPatternsV (pats : List SelectPattern) (stream : JVal) : Except PErr Bool :=
  matchPatternsV stream
    ((pats.filter fun p => !p.negated).map (·.stream_pattern)) []

/-- `SelectExecutor.property_match_patterns`: property patterns of
non-negated rules as includes, of negated rules as excludes. -/
def propertyMatchPatterns (pats : List SelectPattern) (prop : String) : Bool :=
  matchPatterns prop
    ((pats.filter fun p => !p.negated).map (·.property_pattern))
    ((pats.filter fun p => p.negated).map (·.property_pattern))

/-! ## The path regexes of `visit`

Python applies `re.search` with patterns `streams\[\d+\]$`,
`schema\.properties\..*$` and `metadata\[\d+\]$` to the textual path.
`$` matches at the end of the string or just before a trailing newline,
and `.` does not match a newline, which the `dollarTailOk` helper
captures exactly. -/

/-- Can `.*$` consume the list?  True iff the list contains no newline
except possibly a single trailing one. -/
def dollarTailOk (l : List Char) : Bool :=
  match l.dropWhile (· ≠ '\n') with
  | [] => true
  | ['\n'] => true
  | _ => false

/-- One anchor position of `re.search(r"schema\.properties\..*$", path)`:
the literal prefix followed by a `.*$`-acceptable tail. -/
def schemaPropsAt (l : List Char) : Bool :=
  "schema.properties.".data.isPrefixOf l && dollarTailOk (l.drop 18)

/-- `re.search(r"schema\.properties\..*$", path)` over all positions. -/
def searchSchemaProps : List Char → Bool
  | [] => false
  | c :: rest => schemaPropsAt (c :: rest) || searchSchemaProps rest

/-- Does `lit[` + digits + `]$` match starting here?  Shared shape of the
`streams[\d+]$` and `metadata[\d+]$` searches. -/
def idxSuffixAt (lit : List Char) (l : List Char) : Bool :=
  lit.isPrefixOf l &&
    (let r := l.drop lit.length
     let ds := r.takeWhile (·.isDigit)
     !ds.isEmpty &&
       match r.drop ds.length with
       | ']' :: t => t = [] || t = ['\n']
       | _ => false)

def searchIdxSuffix (lit : List Char) : List Char → Bool
  | [] => false
  | c :: rest => idxSuffixAt lit (c :: rest) || searchIdxSuffix lit rest

/-- `re.search(r"streams\[\d+\]$", path)`. -/
def searchStreamsIdx (path : String) : Bool :=
  searchIdxSuffix "streams[".data path.data

/-- `re.search(r"metadata\[\d+\]$", path)`. -/
def searchMetadataIdx (path : String) : Bool :=
  searchIdxSuffix "metadata[".data path.data

/-- `re.search(r"schema\.properties\..*$", path)`. -/
def searchSchemaProperties (path : String) : Bool :=
  searchSchemaProps path.data

/-- Python's `\w` for the property-path components (ASCII reading;
the documents considered here use ASCII names). -/
def isWordChar (c : Char) : Bool :=
  c.isAlphanum || c = '_'

/-- Fuel-indexed scanner for `findallProps` (each step consumes at least
one character, so fuel `l.length + 1` suffices). -/
def findallPropsAux : Nat → List Char → List String
  | 0, _ => []
  | fuel + 1, l =>
    match l with
    | [] => []
    | c :: rest =>
        if "properties.".data.isPrefixOf (c :: rest) then
          let w := ((c :: rest).drop 11).takeWhile isWordChar
          if w.isEmpty then findallPropsAux fuel rest
          else String.mk w :: findallPropsAux fuel ((c :: rest).drop (11 + w.length))
        else findallPropsAux fuel rest

/-- `re.findall(r"properties\.(\w+)+", path)`: scan left to right; at
each occurrence of the literal `properties.` followed by a non-empty
maximal word-character run, capture that run and continue after it. -/
def findallProps (l : List Char) : List String :=
  findallPropsAux (l.length + 1) l

/-! ## The `SelectExecutor` handlers

Python's `SelectExecutor` keeps `self._patterns` and the alias
`self._stream` to the most recently visited stream node.  In the pure
embedding the state records whether `_stream` is still `None`
(`hasStream`), the value of the stream node's `"stream"` field
(`none` when the key is missing, so that `current_stream` raises
`KeyError` like the live Python read), and the current contents of the
stream node's `"metadata"` list, which descendants mutate through the
alias. -/

structure SelSt where
  patterns : List SelectPattern
  hasStream : Bool
  streamName : Option JVal
  streamMeta : Option (List JVal)
deriving Repr, DecidableEq

/-- `SelectExecutor.current_stream` (`self._stream["stream"]`):
`TypeError` while `_stream` is still `None`, `KeyError` when the stream
node has no `"stream"` key. -/
def currentStream (st : SelSt) : Except PErr JVal :=
  if st.hasStream then
    match st.streamName with
    | some v => .ok v
    | none => .error .keyError
  else .error .typeError

/-- Result of one handler call: either a normal return, a raised
`KeyError` (for `execute` to catch) with whatever partial mutations
happened before the raise, or an uncaught error. -/
inductive HRes where
  | ok (node : JVal) (st : SelSt)
  | keyErr (node : JVal) (st : SelSt)
  | fatal (e : PErr)
deriving Repr, DecidableEq

/-- Python `len(...)`: defined for str/list/dict, `TypeError` on bool. -/
def pyLen : JVal → Except PErr Nat
  | .arr xs => .ok xs.length
  | .str s => .ok s.length
  | .obj fs => .ok fs.length
  | .bool _ => .error .typeError

/-- The synthetic entry
`{"breadcrumb": [], "metadata": {"inclusion": "automatic"}}` built by
`stream_node`.  Note: no `"selected"` field. -/
def syntheticStreamEntry : JVal :=
  .obj [("breadcrumb", .arr []), ("metadata", .obj [("inclusion", .str "automatic")])]

/-- The entry `{"breadcrumb": breadcrumb, "metadata": {"inclusion":
"automatic"}}` appended by `property_node` for a missing breadcrumb. -/
def freshPropertyEntry (bc : JVal) : JVal :=
  .obj [("breadcrumb", bc), ("metadata", .obj [("inclusion", .str "automatic")])]

/-- The scan `next(m for m in entries if len(m["breadcrumb"]) == 0)`:
stops at the first entry with an empty breadcrumb, returning the
entries before it, the entry, and the entries after it; entries after
the hit are never examined (the generator is lazy).  A missing
`"breadcrumb"` key raises `KeyError` (which `stream_node` catches into
its legacy branch); non-dict entries or unsized breadcrumbs raise
`TypeError`. -/
def findEmptyBc : List JVal → Except PErr (Option (List JVal × JVal × List JVal))
  | [] => .ok none
  | e :: rest =>
    match e with
    | .obj efs =>
      match jlookup efs "breadcrumb" with
      | none => .error .keyError
      | some bc =>
        match pyLen bc with
        | .error er => .error er
        | .ok n =>
          if n = 0 then .ok (some ([], e, rest))
          else
            match findEmptyBc rest with
            | .ok none => .ok none
            | .ok (some (pre, x, post)) => .ok (some (e :: pre, x, post))
            | .error er => .error er
    | _ => .error .typeError

/-- The scan `next(m for m in entries if m["breadcrumb"] == breadcrumb)`
used by `property_node`, reduced to a containment test. -/
def findBc : List JVal → JVal → Except PErr Bool
  | [], _ => .ok false
  | e :: rest, bc =>
    match e with
    | .obj efs =>
      match jlookup efs "breadcrumb" with
      | none => .error .keyError
      | some b => if b = bc then .ok true else findBc rest bc
    | _ => .error .typeError

/-- `SelectExecutor.stream_node`.  Sets `self._stream`, computes the
stream-level `selected`, locates (or backfills) the empty-breadcrumb
metadata entry, writes `selected` into it only when it was found
directly, and always writes the node's own top-level `"selected"`. -/
def streamNode (node : JVal) (st : SelSt) : HRes :=
  match node with
  | .obj fs =>
    match jlookup fs "stream" with
    | none =>
        -- `self._stream = node` already happened; `current_stream` raises
        -- `KeyError`, which `execute` will catch.
        .keyErr node { st with hasStream := true, streamName := none, streamMeta := none }
    | some v =>
      match streamMatchPatternsV st.patterns v with
      | .error e => .fatal e
      | .ok sel =>
        let finish (fs₁ : List (String × JVal)) (meta₁ : List JVal) : HRes :=
          .ok (.obj (objSet fs₁ "selected" (.bool sel)))
            { st with hasStream := true, streamName := some v, streamMeta := some meta₁ }
        let backfillAll : HRes :=
          -- `except KeyError`: replace the whole "metadata" value
          finish (objSet fs "metadata" (.arr [syntheticStreamEntry])) [syntheticStreamEntry]
        match jlookup fs "metadata" with
        | none => backfillAll
        | some (.arr es) =>
          match findEmptyBc es with
          | .error .keyError => backfillAll
          | .error e => .fatal e
          | .ok none =>
              -- `except StopIteration`: insert the synthetic entry at the front
              finish (objSet fs "metadata" (.arr (syntheticStreamEntry :: es)))
                (syntheticStreamEntry :: es)
          | .ok (some (pre, e, post)) =>
            match e with
            | .obj efs =>
              match jlookup efs "metadata" with
              | none => backfillAll   -- `metadata["metadata"]` raises KeyError
              | some (.obj mfs) =>
                  let e' : JVal :=
                    .obj (objSet efs "metadata" (.obj (objSet mfs "selected" (.bool sel))))
                  finish (objSet fs "metadata" (.arr (pre ++ e' :: post)))
                    (pre ++ e' :: post)
              | some _ => .fatal .typeError
            | _ => .fatal .typeError
        | some _ =>
          -- iterating a non-list "metadata" value ends in TypeError or
          -- AttributeError before reaching any other outcome
          .fatal .typeError
  | _ => .fatal .typeError

/-- `SelectExecutor.stream_metadata_node`: recompute the stream-level
`selected` and write it into this (empty-breadcrumb) entry's metadata. -/
def streamMetadataNode (node : JVal) (st : SelSt) : HRes :=
  match node with
  | .obj fs =>
    match jlookup fs "metadata" with
    | none => .keyErr node st
    | some m =>
      match currentStream st with
      | .error .keyError => .keyErr node st
      | .error e => .fatal e
      | .ok v =>
        match streamMatchPatternsV st.patterns v with
        | .error e => .fatal e
        | .ok sel =>
          match m with
          | .obj mfs =>
              .ok (.obj (objSet fs "metadata" (.obj (objSet mfs "selected" (.bool sel))))) st
          | _ => .fatal .typeError
  | _ => .fatal .typeError

/-- `SelectExecutor.property_node`: build the breadcrumb
`[current_stream, *re.findall(r"properties\.(\w+)+", path)]` and append
a fresh automatic entry to the current stream's metadata when no entry
with that breadcrumb exists yet. -/
def propertyNode (node : JVal) (path : String) (st : SelSt) : HRes :=
  let components := findallProps path.data
  match currentStream st with
  | .error .keyError => .keyErr node st
  | .error e => .fatal e
  | .ok nameV =>
    let bc : JVal := .arr (nameV :: components.map .str)
    match st.streamMeta with
    | none => .keyErr node st   -- `self._stream["metadata"]` raises KeyError
    | some es =>
      match findBc es bc with
      | .error .keyError => .keyErr node st
      | .error e => .fatal e
      | .ok true => .ok node st
      | .ok false =>
          .ok node { st with streamMeta := some (es ++ [freshPropertyEntry bc]) }

/-- The elements of a list value as strings (`TypeError` when joining a
non-string element). -/
def strsOfJVals : List JVal → Except PErr (List String)
  | [] => .ok []
  | .str s :: rest => (strsOfJVals rest).map (s :: ·)
  | _ :: _ => .error .typeError

/-- `".".join(value)`: join an iterable of strings.  A string iterates
into its characters, a dict into its keys. -/
def pyJoin : JVal → Except PErr String
  | .arr xs => (strsOfJVals xs).map (String.intercalate ".")
  | .str s => .ok (String.intercalate "." (s.data.map fun c => String.mk [c]))
  | .obj fs => .ok (String.intercalate "." (fs.map (·.1)))
  | .bool _ => .error .typeError

/-- `SelectExecutor.property_metadata_node`: `selected` is the property
match of the dot-join of the whole breadcrumb (the stream name
included), written into this entry's metadata. -/
def propertyMetadataNode (node : JVal) (st : SelSt) : HRes :=
  match node with
  | .obj fs =>
    match jlookup fs "breadcrumb" with
    | none => .keyErr node st
    | some bcv =>
      match pyJoin bcv with
      | .error e => .fatal e
      | .ok prop =>
        let sel := propertyMatchPatterns st.patterns prop
        match jlookup fs "metadata" with
        | none => .keyErr node st
        | some (.obj mfs) =>
            .ok (.obj (objSet fs "metadata" (.obj (objSet mfs "selected" (.bool sel))))) st
        | some _ => .fatal .typeError
  | _ => .fatal .typeError

/-! ## `CatalogExecutor.execute` -/

/-- The four node kinds. -/
inductive CatalogNode where
  | stream
  | streamMetadata
  | streamProperty
  | streamPropertyMetadata
deriving DecidableEq, Repr

/-- The dispatch table of `CatalogExecutor.execute`, specialised to
`SelectExecutor`'s handlers (total: the table covers every kind). -/
def dispatchHandler : CatalogNode → JVal → String → SelSt → HRes
  | .stream, n, _, st => streamNode n st
  | .streamMetadata, n, _, st => streamMetadataNode n st
  | .streamProperty, n, p, st => propertyNode n p st
  | .streamPropertyMetadata, n, _, st => propertyMetadataNode n st

/-- `CatalogExecutor.execute`: run the dispatched handler and swallow
`KeyError` (only a debug log is emitted), keeping whatever partial
mutations the handler made before raising. -/
def execute (nt : CatalogNode) (node : JVal) (path : String) (st : SelSt) :
    Except PErr (JVal × SelSt) :=
  match dispatchHandler nt node path st with
  | .ok n' st' => .ok (n', st')
  | .keyErr n' st' => .ok (n', st')
  | .fatal e => .error e

/-! ## The `visit` traversal

`visit` recurses depth first: dicts run the (up to three) dispatches and
then visit each field value with `path.key`, lists visit elements with
`path[index]`, scalars do nothing.  The interpreter threads the executor
state and is fuel-indexed per nesting level (the backfilled metadata
entries are not subterms of the input, so the recursion is not
structural).

The `self._stream` alias is realised in the dict case: when the stream
dispatch succeeded for this node, the `"metadata"` child is read from
the state at the moment it is reached (picking up entries appended while
visiting earlier siblings such as `"schema"`), the visited entries are
stored back to the state, and the final value of the field is the state
list after all children (picking up entries appended by later siblings).
This mirrors in-place mutation of the shared list for documents without
nested stream nodes, which is the only shape the module is used on. -/

/-- The classification checks of `visit.register(dict)` in source order,
each possibly dispatching through `execute`.  Returns the node, the
state, and whether this node became the current stream (a successful
`stream_node` run). -/
def visitDispatches (node : JVal) (path : String) (st : SelSt) :
    Except PErr (JVal × SelSt × Bool) := do
  let (n₁, st₁, frame) ←
    if searchStreamsIdx path then
      match streamNode node st with
      | .ok n s => Except.ok (n, s, true)
      | .keyErr n s => Except.ok (n, s, false)
      | .fatal e => Except.error e
    else Except.ok (node, st, false)
  let (n₂, st₂) ←
    if searchSchemaProperties path then execute .streamProperty n₁ path st₁
    else Except.ok (n₁, st₁)
  let (n₃, st₃) ←
    if searchMetadataIdx path && hasKey n₂ "breadcrumb" then
      match n₂ with
      | .obj fs =>
        match jlookup fs "breadcrumb" with
        | some bc =>
          match pyLen bc with
          | .error e => Except.error e
          | .ok 0 => execute .streamMetadata n₂ path st₂
          | .ok _ => execute .streamPropertyMetadata n₂ path st₂
        | none => Except.ok (n₂, st₂)
      | _ => Except.ok (n₂, st₂)
    else Except.ok (n₂, st₂)
  return (n₃, st₃, frame)

/-- `for child_path, child_node in node.items(): visit(child, path=f"{path}.{child_path}")`,
with the stream-alias substitution for the `"metadata"` field. -/
def visitFields (rec : JVal → String → SelSt → Except PErr (JVal × SelSt))
    (frame : Bool) (path : String) :
    List (String × JVal) → SelSt → Except PErr (List (String × JVal) × SelSt)
  | [], st => .ok ([], st)
  | (k, v) :: rest, st => do
    let v₀ := if frame && k == "metadata" then .arr (st.streamMeta.getD []) else v
    let (v', st') ← rec v₀ (path ++ "." ++ k) st
    let st'' := if frame && k == "metadata" then
        { st' with streamMeta := some (match v' with | .arr xs => xs | _ => []) }
      else st'
    let (rest', stF) ← visitFields rec frame path rest st''
    return ((k, v') :: rest', stF)

/-- `for index, child_node in enumerate(node): visit(child, path=f"{path}[{index}]")`. -/
def visitElems (rec : JVal → String → SelSt → Except PErr (JVal × SelSt))
    (path : String) :
    List JVal → Nat → SelSt → Except PErr (List JVal × SelSt)
  | [], _, st => .ok ([], st)
  | x :: rest, i, st => do
    let (x', st') ← rec x (path ++ "[" ++ toString i ++ "]") st
    let (rest', st'') ← visitElems rec path rest (i + 1) st'
    return (x' :: rest', st'')

/-- The `visit` traversal with `SelectExecutor` plugged in. -/
def visitV : Nat → JVal → String → SelSt → Except PErr (JVal × SelSt)
  | 0, _, _, _ => .error .fuel
  | f + 1, node, path, st =>
    match node with
    | .obj _ => do
      let (n₁, st₁, frame) ← visitDispatches node path st
      match n₁ with
      | .obj fs => do
        let (fs', st') ← visitFields (visitV f) frame path fs st₁
        let fs'' := if frame then
            fs'.map fun kv =>
              if kv.1 == "metadata" then (kv.1, .arr (st'.streamMeta.getD [])) else kv
          else fs'
        return (.obj fs'', st')
      | _ => return (n₁, st₁)
    | .arr xs => do
      let (xs', st') ← visitElems (visitV f) path xs 0 st
      return (.arr xs', st')
    | _ => .ok (node, st)

mutual

/-- Nesting depth of a value (scalars are 0). -/
def jheight : JVal → Nat
  | .str _ => 0
  | .bool _ => 0
  | .obj fs => jheightF fs + 1
  | .arr xs => jheightL xs + 1

def jheightF : List (String × JVal) → Nat
  | [] => 0
  | (_, v) :: rest => max (jheight v) (jheightF rest)

def jheightL : List JVal → Nat
  | [] => 0
  | v :: rest => max (jheight v) (jheightL rest)

end

/-- `SelectExecutor.__init__`: parse the rules, `_stream = None`. -/
def initSt (rules : List String) : SelSt :=
  { patterns := rules.map parseSelectPattern
    hasStream := false
    streamName := none
    streamMeta := none }

def runSelectFuel (fuel : Nat) (rules : List String) (doc : JVal) : Except PErr JVal :=
  (visitV fuel doc "" (initSt rules)).map (·.1)

/-- `visit(doc, SelectExecutor(rules))`, with fuel ample for the
document (the entries backfilled during the traversal are at most 3
levels deep below positions already present in the document). -/
def runSelect (rules : List String) (doc : JVal) : Except PErr JVal :=
  runSelectFuel (jheight doc + 9) rules doc

/-! ## `ListSelectedExecutor` -/

/-- Python truthiness of a value (`bool(v)`). -/
def pyTruthy : JVal → Bool
  | .str s => !s.isEmpty
  | .bool b => b
  | .obj fs => !fs.isEmpty
  | .arr xs => !xs.isEmpty

/-- `ListSelectedExecutor.is_node_selected`: `metadata.get("inclusion") ==
"automatic" or metadata.get("selected", False)`, with a missing
`"metadata"` key caught into `False`; calling `.get` on a non-dict
raises `AttributeError` (uncaught). -/
def isNodeSelected (node : JVal) : Except PErr Bool :=
  match node with
  | .obj fs =>
    match jlookup fs "metadata" with
    | none => .ok false
    | some (.obj mfs) =>
        .ok ((jlookup mfs "inclusion" == some (.str "automatic")) ||
          pyTruthy ((jlookup mfs "selected").getD (.bool false)))
    | some _ => .error .typeError
  | _ => .ok false

/-- `del selected[stream]`: remove the binding, `KeyError` when the key
is absent. -/
def delStream (props : List (String × List (String × Bool))) (name : String) :
    Except PErr (List (String × List (String × Bool))) :=
  if props.any (fun p => p.1 = name) then
    .ok (props.filter fun p => p.1 ≠ name)
  else .error .keyError

/-- `ListSelectedExecutor.selected_properties` on the visitor's
accumulated state: `streams` is the set of `(streamName, isSelected)`
pairs, `props` the ordered mapping from stream name to its set of
`(propertyDottedName, isSelected)` pairs.  Streams recorded with a
`false` pair are deleted, then each remaining stream is mapped to the
names of its `true` pairs. -/
def selectedProperties (streams : List (String × Bool))
    (props : List (String × List (String × Bool))) :
    Except PErr (List (String × List String)) := do
  let pruned ← (streams.filter fun p => !p.2).foldlM
    (fun acc p => delStream acc p.1) props
  return pruned.map fun sp => (sp.1, (sp.2.filter (·.2)).map (·.1))

/-! ## Helpers for stating the claims -/

/-- The `"selected"` value inside a metadata entry's `"metadata"`
mapping, if any. -/
def entryMetaSelected (e : JVal) : Option JVal :=
  match e with
  | .obj efs =>
    match jlookup efs "metadata" with
    | some (.obj mfs) => jlookup mfs "selected"
    | _ => none
  | _ => none

/-- One link of the claimed suffix shape: `<name>(.properties.<name>)*`
over the dot-separated tokens. -/
def propChain : List String → Bool
  | [n] => !n.isEmpty
  | n :: "properties" :: rest => !n.isEmpty && propChain rest
  | _ => false

/-- Modelled from the spec's words (claim C5): the path, "viewed as
ending in `schema.properties.<rest>` where `<rest>` may itself contain
further `.properties.<name>` segments" — i.e. the dot-separated tokens
of the path end in `schema`, `properties`, then an alternation of a
name and the literal `properties`. -/
def specPropertySuffixShape (path : String) : Bool :=
  let ts := splitDots path.data
  (List.range ts.length).any fun i =>
    match ts.drop i with
    | "schema" :: "properties" :: rest => propChain rest
    | _ => false

/-! ## Concrete documents for the end-to-end claims -/

/-- A catalog with one stream `stream1` carrying properties `id` and
`secret`, each with its own property-metadata entry (canonical key
order: `stream`, `schema`, `metadata`). -/
def docC6 : JVal := .obj [("streams", .arr [
  .obj [
    ("stream", .str "stream1"),
    ("schema", .obj [("properties", .obj [
       ("id", .obj [("type", .str "integer")]),
       ("secret", .obj [("type", .str "string")])])]),
    ("metadata", .arr [
       .obj [("breadcrumb", .arr [.str "stream1", .str "id"]),
             ("metadata", .obj [("inclusion", .str "available")])],
       .obj [("breadcrumb", .arr [.str "stream1", .str "secret"]),
             ("metadata", .obj [("inclusion", .str "available")])]])]])]

/-- The same document after `runSelect ["stream1.*", "!stream1.secret"]`. -/
def docC6Selected : JVal := .obj [("streams", .arr [
  .obj [
    ("stream", .str "stream1"),
    ("schema", .obj [("properties", .obj [
       ("id", .obj [("type", .str "integer")]),
       ("secret", .obj [("type", .str "string")])])]),
    ("metadata", .arr [
       .obj [("breadcrumb", .arr []),
             ("metadata", .obj [("inclusion", .str "automatic"),
                                ("selected", .bool true)])],
       .obj [("breadcrumb", .arr [.str "stream1", .str "id"]),
             ("metadata", .obj [("inclusion", .str "available"),
                                ("selected", .bool true)])],
       .obj [("breadcrumb", .arr [.str "stream1", .str "secret"]),
             ("metadata", .obj [("inclusion", .str "available"),
                                ("selected", .bool false)])]]),
    ("selected", .bool true)]])]

/-- A stream whose `"metadata"` key precedes its `"schema"` key: the
entry appended for property `id` during a first selection pass is
appended after the metadata list has already been traversed. -/
def docC7 : JVal := .obj [("streams", .arr [
  .obj [
    ("stream", .str "s1"),
    ("metadata", .arr [.obj [("breadcrumb", .arr []), ("metadata", .obj [])]]),
    ("schema", .obj [("properties", .obj [
       ("id", .obj [("type", .str "integer")])])])]])]

/-- `docC7` after one pass of `runSelect ["s1"]`: the appended entry for
`["s1", "id"]` has no `"selected"` field. -/
def docC7Once : JVal := .obj [("streams", .arr [
  .obj [
    ("stream", .str "s1"),
    ("metadata", .arr [
       .obj [("breadcrumb", .arr []),
             ("metadata", .obj [("selected", .bool true)])],
       .obj [("breadcrumb", .arr [.str "s1", .str "id"]),
             ("metadata", .obj [("inclusion", .str "automatic")])]]),
    ("schema", .obj [("properties", .obj [
       ("id", .obj [("type", .str "integer")])])]),
    ("selected", .bool true)]])]

/-- `docC7Once` after a second pass: the second pass now visits the
appended entry and writes `"selected"` into it, so the document changes
again. -/
def docC7Twice : JVal := .obj [("streams", .arr [
  .obj [
    ("stream", .str "s1"),
    ("metadata", .arr [
       .obj [("breadcrumb", .arr []),
             ("metadata", .obj [("selected", .bool true)])],
       .obj [("breadcrumb", .arr [.str "s1", .str "id"]),
             ("metadata", .obj [("inclusion", .str "automatic"),
                                ("selected", .bool false)])]]),
    ("schema", .obj [("properties", .obj [
       ("id", .obj [("type", .str "integer")])])]),
    ("selected", .bool true)]])]

/-! ## Well-formed documents

The spec's conceptual schema (§6):
`{streams: [{stream, schema: {properties: {name: subschema}}, metadata:
[{breadcrumb, metadata}]}]}`.  Well-formedness additionally pins down
what the engine itself assumes: property names are word characters (the
breadcrumb components are recovered with `\w+`), breadcrumb elements are
strings, entry metadata and all unrecognised fields are scalars, keys
are unique, and a stream's `schema` field precedes its `metadata` field
(the order in which the spec lists them). -/

def isScalar : JVal → Bool
  | .str _ => true
  | .bool _ => true
  | _ => false

def wordStr (s : String) : Bool :=
  !s.isEmpty && s.data.all isWordChar

/-- A metadata entry: `{breadcrumb: [str...], metadata: {scalars}}`. -/
def wfEntry : JVal → Bool
  | .obj [("breadcrumb", .arr bs), ("metadata", .obj mfs)] =>
      (bs.all fun b => match b with | .str _ => true | _ => false) &&
      (mfs.all fun kv => isScalar kv.2) &&
      decide ((mfs.map (·.1)).Nodup)
  | _ => false

mutual

/-- The `properties` mapping: word-character names to sub-schemas. -/
def wfProps : List (String × JVal) → Bool
  | [] => true
  | (n, v) :: rest => wordStr n && wfPropSchema v && wfProps rest

/-- One property sub-schema: a mapping whose `properties` field (if any)
is again a properties mapping and whose other fields are scalars. -/
def wfPropSchema : JVal → Bool
  | .obj fs => wfPropFields fs
  | _ => false

def wfPropFields : List (String × JVal) → Bool
  | [] => true
  | (k, v) :: rest =>
      (if k = "properties" then
        match v with
        | .obj ps => wfProps ps
        | _ => false
      else isScalar v) && wfPropFields rest

end

def wfSchema : JVal → Bool
  | .obj fs =>
      decide ((fs.map (·.1)).Nodup) &&
      (fs.all fun kv =>
        if kv.1 = "properties" then
          match kv.2 with
          | .obj ps => wfProps ps && decide ((ps.map (·.1)).Nodup)
          | _ => false
        else isScalar kv.2)
  | _ => false

/-- No `schema` field after a `metadata` field. -/
def schemaBeforeMetadata : List (String × JVal) → Bool
  | [] => true
  | (k, _) :: rest =>
      (if k = "metadata" then rest.all fun kv => kv.1 ≠ "schema" else true) &&
      schemaBeforeMetadata rest

def wfStream : JVal → Bool
  | .obj fs =>
      decide ((fs.map (·.1)).Nodup) &&
      (match jlookup fs "stream" with | some (.str _) => true | _ => false) &&
      (fs.all fun kv =>
        if kv.1 = "stream" then true
        else if kv.1 = "schema" then wfSchema kv.2
        else if kv.1 = "metadata" then
          match kv.2 with
          | .arr es => es.all wfEntry
          | _ => false
        else isScalar kv.2) &&
      schemaBeforeMetadata fs
  | _ => false

def wfDoc : JVal → Bool
  | .obj fs =>
      decide ((fs.map (·.1)).Nodup) &&
      (match jlookup fs "streams" with
       | some (.arr ss) => ss.all wfStream
       | _ => false) &&
      (fs.all fun kv => kv.1 = "streams" || isScalar kv.2)
  | _ => false

/-! ## Closed form of a selection pass on a well-formed document -/

mutual

/-- The breadcrumb tails (property-name chains) implied by a properties
mapping, in the pre-order in which the traversal visits them. -/
def propsBCs : List (String × JVal) → List (List String)
  | [] => []
  | (n, v) :: rest =>
      [n] :: ((propSchemaBCs v).map (n :: ·)) ++ propsBCs rest

/-- The breadcrumb tails below one property sub-schema. -/
def propSchemaBCs : JVal → List (List String)
  | .obj fs => propFieldsBCs fs
  | _ => []

/-- The breadcrumb tails contributed by a sub-schema's field list (only
its `properties` field contributes; keys are unique in well-formed
documents). -/
def propFieldsBCs : List (String × JVal) → List (List String)
  | [] => []
  | ("properties", .obj ps) :: rest => propsBCs ps ++ propFieldsBCs rest
  | _ :: rest => propFieldsBCs rest

end

/-- Is there an entry with this breadcrumb?  (The error-free content of
`findBc` on well-formed entries.) -/
def hasBc (es : List JVal) (bc : JVal) : Bool :=
  es.any fun e =>
    match e with
    | .obj efs => jlookup efs "breadcrumb" == some bc
    | _ => false

/-- `property_node`'s backfill over the breadcrumb chains of the schema,
in traversal order: append a fresh automatic entry for each chain whose
breadcrumb is not yet present. -/
def addMissing (name : String) (bcs : List (List String)) (meta : List JVal) : List JVal :=
  bcs.foldl
    (fun acc bc =>
      let bcv : JVal := .arr (.str name :: bc.map .str)
      if hasBc acc bcv then acc else acc ++ [freshPropertyEntry bcv])
    meta

/-- The strings of a (well-formed) breadcrumb value. -/
def strListD (bs : List JVal) : List String :=
  bs.map fun b => match b with | .str s => s | _ => ""

/-- The `selected` write a traversal performs on one metadata entry:
the stream-level value for an empty breadcrumb, the property match of
the dot-joined full breadcrumb otherwise. -/
def entryWrite (pats : List SelectPattern) (name : String) (e : JVal) : JVal :=
  match e with
  | .obj efs =>
    match jlookup efs "breadcrumb", jlookup efs "metadata" with
    | some (.arr bs), some (.obj mfs) =>
      let sel :=
        match bs with
        | [] => streamMatchPatterns pats name
        | _ :: _ => propertyMatchPatterns pats (String.intercalate "." (strListD bs))
      .obj (objSet efs "metadata" (.obj (objSet mfs "selected" (.bool sel))))
    | _, _ => e
  | _ => e

/-- The update `stream_node` performs on the metadata list (before the
entries are visited): write `selected` into a directly-found
empty-breadcrumb entry, or insert the synthetic entry. -/
def entrySetSel (sel : Bool) (e : JVal) : JVal :=
  match e with
  | .obj efs =>
    match jlookup efs "metadata" with
    | some (.obj mfs) => .obj (objSet efs "metadata" (.obj (objSet mfs "selected" (.bool sel))))
    | _ => e
  | _ => e

/-- The closed form of one selection pass over a single well-formed
stream node (canonical key order: `schema` before `metadata`). -/
def streamXform (pats : List SelectPattern) (s : JVal) : JVal :=
  match s with
  | .obj fs =>
    match jlookup fs "stream" with
    | some (.str name) =>
      let sel := streamMatchPatterns pats name
      let meta₁ : List JVal :=
        match jlookup fs "metadata" with
        | none => [syntheticStreamEntry]
        | some (.arr es) =>
          match findEmptyBc es with
          | .ok none => syntheticStreamEntry :: es
          | .ok (some (pre, e, post)) => pre ++ entrySetSel sel e :: post
          | .error _ => [syntheticStreamEntry]
        | some _ => [syntheticStreamEntry]
      let bcs :=
        match jlookup fs "schema" with
        | some sch => propSchemaBCs sch
        | none => []
      let meta₂ := addMissing name bcs meta₁
      let meta₃ := meta₂.map (entryWrite pats name)
      .obj (objSet (objSet fs "metadata" (.arr meta₃)) "selected" (.bool sel))
    | _ => s
  | _ => s

/-- The closed form of one selection pass over a well-formed document. -/
def runSelectNF (pats : List SelectPattern) (doc : JVal) : JVal :=
  match doc with
  | .obj fs =>
    match jlookup fs "streams" with
    | some (.arr ss) => .obj (objSet fs "streams" (.arr (ss.map (streamXform pats))))
    | _ => doc
  | _ => doc

/-- The executor state while inside a (successfully dispatched) stream
node. -/
def frameSt (pats : List SelectPattern) (name : String) (meta : List JVal) : SelSt :=
  { patterns := pats, hasStream := true
    streamName := some (.str name), streamMeta := some meta }

/-- Does the two-character string `ab` occur in `l`?  Used to refute
substring occurrences: a string without the pair cannot contain any
pattern that includes it. -/
def hasPair (a b : Char) : List Char → Bool
  | x :: y :: rest => (x = a && y = b) || hasPair a b (y :: rest)
  | _ => false

/-! # Supporting lemmas -/

theorem digitChar_isDigit (m : Nat) (h : m < 10) :
    (Nat.digitChar m).isDigit = true := by
  interval_cases m <;> decide

theorem toDigitsCore_digits (fuel : Nat) :
    ∀ (n : Nat) (acc : List Char), (∀ c ∈ acc, c.isDigit = true) →
      ∀ c ∈ Nat.toDigitsCore 10 fuel n acc, c.isDigit = true := by
  induction fuel with
  | zero => intro n acc hacc c hc; exact hacc c hc
  | succ f ih =>
    intro n acc hacc c hc
    simp only [Nat.toDigitsCore] at hc
    split at hc
    · rcases List.mem_cons.mp hc with h | h
      · subst h
        exact digitChar_isDigit _ (Nat.mod_lt _ (by omega))
      · exact hacc c h
    · refine ih _ _ ?_ c hc
      intro c' hc'
      rcases List.mem_cons.mp hc' with h | h
      · subst h
        exact digitChar_isDigit _ (Nat.mod_lt _ (by omega))
      · exact hacc c' h

theorem toDigitsCore_ne_nil (fuel : Nat) :
    ∀ (n : Nat) (acc : List Char), fuel ≠ 0 ∨ acc ≠ [] →
      Nat.toDigitsCore 10 fuel n acc ≠ [] := by
  induction fuel with
  | zero =>
    intro n acc h
    rcases h with h | h
    · exact absurd rfl h
    · exact h
  | succ f ih =>
    intro n acc _
    simp only [Nat.toDigitsCore]
    split
    · simp
    · exact ih _ _ (.inr (by simp))

theorem repr_digits (n : Nat) :
    (toString n).data ≠ [] ∧ ∀ c ∈ (toString n).data, c.isDigit = true := by
  have h1 : (toString n).data = Nat.toDigitsCore 10 (n + 1) n [] := rfl
  rw [h1]
  exact ⟨toDigitsCore_ne_nil _ _ _ (.inl (by omega)),
    toDigitsCore_digits _ _ _ (by intro c hc; cases hc)⟩

theorem isDigit_no_newline {c : Char} (h : c.isDigit = true) : c ≠ '\n' := by
  intro he; subst he; simp [Char.isDigit] at h

theorem isDigit_ne_rbracket {c : Char} (h : c.isDigit = true) : c ≠ ']' := by
  intro he; subst he; simp [Char.isDigit] at h

theorem takeWhile_all_append (p : Char → Bool) (ds : List Char) (x : Char) (t : List Char)
    (hds : ∀ c ∈ ds, p c = true) (hx : p x = false) :
    (ds ++ x :: t).takeWhile p = ds := by
  induction ds with
  | nil => simp [List.takeWhile, hx]
  | cons d ds' ih =>
    have hd : p d = true := hds d (List.mem_cons_self _ _)
    have ih' := ih (fun c hc => hds c (List.mem_cons_of_mem _ hc))
    simp [List.takeWhile_cons, hd, ih']

theorem takeWhile_all (p : Char → Bool) (l : List Char)
    (h : ∀ c ∈ l, p c = true) : l.takeWhile p = l := by
  induction l with
  | nil => rfl
  | cons c rest ih =>
    have hc : p c = true := h c (List.mem_cons_self _ _)
    have := ih fun c' hc' => h c' (List.mem_cons_of_mem _ hc')
    simp [List.takeWhile_cons, hc, this]

theorem idxSuffixAt_iff (lit l : List Char) (hnl : '\n' ∉ l) :
    idxSuffixAt lit l = true ↔
      ∃ ds, ds ≠ [] ∧ (∀ c ∈ ds, c.isDigit = true) ∧ l = lit ++ ds ++ [']'] := by
  unfold idxSuffixAt
  rw [Bool.and_eq_true, List.isPrefixOf_iff_prefix]
  constructor
  · rintro ⟨⟨rest, hrest⟩, h2⟩
    rw [Bool.and_eq_true] at h2
    obtain ⟨hne, hmatch⟩ := h2
    have hdropl : l.drop lit.length = rest := by
      rw [← hrest]
      exact List.drop_left lit rest
    rw [hdropl] at hne hmatch
    set ds := rest.takeWhile (·.isDigit) with hds
    have hpre : ds <+: rest := List.takeWhile_prefix _
    obtain ⟨tail, htail⟩ := hpre
    have hdroptail : rest.drop ds.length = tail := by
      rw [← htail]
      exact List.drop_left ds tail
    rw [hdroptail] at hmatch
    have hdigits : ∀ c ∈ ds, c.isDigit = true := by
      intro c hc
      exact List.mem_takeWhile_imp (hds ▸ hc)
    have hdsne : ds ≠ [] := by
      intro he
      rw [he] at hne
      simp at hne
    split at hmatch
    · rename_i t
      have ht : t = [] ∨ t = ['\n'] := by
        rcases Bool.or_eq_true _ _ |>.mp hmatch with h | h
        · exact .inl (of_decide_eq_true h)
        · exact .inr (of_decide_eq_true h)
      rcases ht with ht | ht
      · subst ht
        exact ⟨ds, hdsne, hdigits, by rw [← hrest, ← htail]; simp⟩
      · exfalso
        apply hnl
        rw [← hrest, ← htail, ht]
        simp
    · exact absurd hmatch (by simp)
  · rintro ⟨ds, hdsne, hdigits, hl⟩
    subst hl
    refine ⟨⟨ds ++ [']'], by simp⟩, ?_⟩
    have hdrop : ((lit ++ ds ++ [']']).drop lit.length) = ds ++ [']'] := by
      rw [List.append_assoc]
      exact List.drop_left lit (ds ++ [']'])
    rw [hdrop]
    dsimp only
    have htw : (ds ++ [']']).takeWhile (·.isDigit) = ds := by
      have := takeWhile_all_append (·.isDigit) ds ']' [] hdigits (by decide)
      simpa using this
    rw [htw]
    have hdrop2 : (ds ++ [']']).drop ds.length = [']'] := List.drop_left ds [']']
    rw [hdrop2]
    simp [hdsne]

theorem searchIdxSuffix_iff (lit l : List Char) (hlit : lit ≠ []) (hnl : '\n' ∉ l) :
    searchIdxSuffix lit l = true ↔
      ∃ a ds, ds ≠ [] ∧ (∀ c ∈ ds, c.isDigit = true) ∧ l = a ++ lit ++ ds ++ [']'] := by
  induction l with
  | nil =>
    simp only [searchIdxSuffix]
    constructor
    · intro h; cases h
    · rintro ⟨a, ds, hne, _, hl⟩
      exfalso
      have : (a ++ lit ++ ds ++ [']']).length = 0 := by rw [← hl]; rfl
      simp at this
  | cons c rest ih =>
    have hnlr : '\n' ∉ rest := fun hc => hnl (List.mem_cons_of_mem _ hc)
    simp only [searchIdxSuffix, Bool.or_eq_true]
    rw [idxSuffixAt_iff lit (c :: rest) hnl, ih hnlr]
    constructor
    · rintro (⟨ds, hne, hd, hl⟩ | ⟨a, ds, hne, hd, hl⟩)
      · exact ⟨[], ds, hne, hd, by simpa using hl⟩
      · exact ⟨c :: a, ds, hne, hd, by simp [hl]⟩
    · rintro ⟨a, ds, hne, hd, hl⟩
      rcases a with _ | ⟨a0, a'⟩
      · exact .inl ⟨ds, hne, hd, by simpa using hl⟩
      · right
        refine ⟨a', ds, hne, hd, ?_⟩
        simp only [List.cons_append, List.cons.injEq] at hl
        exact hl.2

theorem searchIdxSuffix_getLast (lit l : List Char) (hlit : lit ≠ []) (hnl : '\n' ∉ l)
    (h : searchIdxSuffix lit l = true) : l.getLast? = some ']' := by
  obtain ⟨a, ds, _, _, hl⟩ := (searchIdxSuffix_iff lit l hlit hnl).mp h
  subst hl
  simp [List.getLast?_concat]

theorem searchIdxSuffix_false_of_getLast (lit l : List Char) (hlit : lit ≠ [])
    (hnl : '\n' ∉ l) (h : l.getLast? ≠ some ']') : searchIdxSuffix lit l = false := by
  cases h' : searchIdxSuffix lit l with
  | false => rfl
  | true => exact absurd (searchIdxSuffix_getLast lit l hlit hnl h') h

theorem digitRun_prefix_align (dsr : List Char) :
    ∀ (tsr : List Char) (cp cq : Char) (p q : List Char),
      (∀ c ∈ dsr, c.isDigit = true) → (∀ c ∈ tsr, c.isDigit = true) →
      cp.isDigit = false → cq.isDigit = false →
      (dsr ++ cp :: p <+: tsr ++ cq :: q) →
      dsr = tsr ∧ cp = cq ∧ p <+: q := by
  induction dsr with
  | nil =>
    intro tsr cp cq p q _ hts hcp hcq h
    cases tsr with
    | nil =>
      simp only [List.nil_append] at h
      rw [List.cons_prefix_cons] at h
      exact ⟨rfl, h.1, h.2⟩
    | cons t ts' =>
      simp only [List.nil_append, List.cons_append] at h
      rw [List.cons_prefix_cons] at h
      exfalso
      have := hts t (List.mem_cons_self _ _)
      rw [← h.1] at this
      rw [this] at hcp
      cases hcp
  | cons d dsr' ih =>
    intro tsr cp cq p q hds hts hcp hcq h
    cases tsr with
    | nil =>
      simp only [List.cons_append, List.nil_append] at h
      rw [List.cons_prefix_cons] at h
      exfalso
      have := hds d (List.mem_cons_self _ _)
      rw [h.1] at this
      rw [this] at hcq
      cases hcq
    | cons t ts' =>
      simp only [List.cons_append] at h
      rw [List.cons_prefix_cons] at h
      obtain ⟨rfl, h2⟩ := h
      obtain ⟨h3, h4, h5⟩ := ih ts' cp cq p q
        (fun c hc => hds c (List.mem_cons_of_mem _ hc))
        (fun c hc => hts c (List.mem_cons_of_mem _ hc)) hcp hcq h2
      exact ⟨by rw [h3], h4, h5⟩

/-- The two idx-regex literals cannot both explain the same
`…[digits]` tail: a path ending `u[digits]` matches the search for
literal `lit` only when `lit` reversed is a prefix of the reversed
pre-bracket part. -/
theorem searchIdx_false_of_other_lit (lit lit' : List Char) (litr litr' : List Char)
    (hlitr : lit.reverse = '[' :: litr) (hlitr' : lit'.reverse = '[' :: litr')
    (hlit : lit ≠ [])
    (hhead : ∀ c c' t t', litr = c :: t → litr' = c' :: t' → c ≠ c')
    (x ts : List Char) (hts : ∀ c ∈ ts, c.isDigit = true)
    (hlr : litr ≠ []) (hlr' : litr' ≠ [])
    (hnl : '\n' ∉ x ++ lit' ++ ts ++ [']']) :
    searchIdxSuffix lit (x ++ lit' ++ ts ++ [']']) = false := by
  cases h' : searchIdxSuffix lit (x ++ lit' ++ ts ++ [']']) with
  | false => rfl
  | true =>
    exfalso
    obtain ⟨a, ds, _, hd, hl⟩ := (searchIdxSuffix_iff _ _ hlit hnl).mp h'
    have hl2 : (x ++ lit') ++ ts = (a ++ lit) ++ ds := by
      have h3 : ((x ++ lit') ++ ts) ++ [']'] = ((a ++ lit) ++ ds) ++ [']'] := by
        simpa [List.append_assoc] using hl
      exact List.append_cancel_right h3
    have hrev := congrArg List.reverse hl2
    simp only [List.reverse_append] at hrev
    rw [hlitr, hlitr'] at hrev
    simp only [List.cons_append] at hrev
    have hpre : ts.reverse ++ '[' :: (litr' ++ x.reverse) <+:
        ds.reverse ++ '[' :: (litr ++ a.reverse) := by
      exact ⟨[], by rw [List.append_nil, hrev]⟩
    obtain ⟨_, _, hp⟩ := digitRun_prefix_align ts.reverse ds.reverse '[' '['
      (litr' ++ x.reverse) (litr ++ a.reverse)
      (fun c hc => hts c (List.mem_reverse.mp hc))
      (fun c hc => hd c (List.mem_reverse.mp hc))
      (by decide) (by decide) hpre
    rcases htr' : litr' with _ | ⟨c', t'⟩
    · exact hlr' htr'
    rcases htr : litr with _ | ⟨c, t⟩
    · exact hlr htr
    rw [htr, htr'] at hp
    simp only [List.cons_append] at hp
    rw [List.cons_prefix_cons] at hp
    exact hhead c c' t t' htr htr' hp.1.symm

theorem hasPair_of_occurs (a b : Char) (l : List Char) (h : [a, b] <:+: l) :
    hasPair a b l = true := by
  obtain ⟨s, t, hst⟩ := h
  subst hst
  rw [List.append_assoc]
  induction s with
  | nil => simp [hasPair]
  | cons c s' ih =>
    rw [List.cons_append]
    cases hsp : s' ++ ([a, b] ++ t) with
    | nil => simp at hsp
    | cons w ws =>
      rw [show hasPair a b (c :: w :: ws) =
          ((decide (c = a) && decide (w = b)) || hasPair a b (w :: ws)) from rfl]
      rw [hsp] at ih
      rw [ih]
      simp

theorem hasPair_fst_mem (a b : Char) : ∀ l, hasPair a b l = true → a ∈ l := by
  intro l
  induction l with
  | nil => intro h; cases h
  | cons c rest ih =>
    intro h
    cases rest with
    | nil => cases h
    | cons d r =>
      rw [show hasPair a b (c :: d :: r) =
          ((decide (c = a) && decide (d = b)) || hasPair a b (d :: r)) from rfl] at h
      rcases Bool.or_eq_true _ _ |>.mp h with h1 | h1
      · rw [Bool.and_eq_true] at h1
        exact List.mem_cons.mpr (.inl (of_decide_eq_true h1.1).symm)
      · exact List.mem_cons_of_mem _ (ih h1)

theorem hasPair_false_of_not_mem (a b : Char) (l : List Char) (h : a ∉ l) :
    hasPair a b l = false := by
  cases h' : hasPair a b l with
  | false => rfl
  | true => exact absurd (hasPair_fst_mem a b l h') h

theorem hasPair_append_false (a b : Char) (x y : List Char)
    (hx : hasPair a b x = false) (hy : hasPair a b y = false)
    (hxy : ¬(x.getLast? = some a ∧ y.head? = some b)) :
    hasPair a b (x ++ y) = false := by
  induction x with
  | nil => simpa using hy
  | cons c x' ih =>
    cases x' with
    | nil =>
      cases y with
      | nil => rfl
      | cons d y' =>
        rw [show ([c] ++ d :: y') = c :: d :: y' from rfl]
        rw [show hasPair a b (c :: d :: y') =
            ((decide (c = a) && decide (d = b)) || hasPair a b (d :: y')) from rfl]
        have h1 : (decide (c = a) && decide (d = b)) = false := by
          cases hca : decide (c = a) with
          | false => rfl
          | true =>
            cases hdb : decide (d = b) with
            | false => simp
            | true =>
              exfalso
              exact hxy ⟨by simp [of_decide_eq_true hca],
                by simp [of_decide_eq_true hdb]⟩
        rw [h1, hy]
        rfl
    | cons c2 x'' =>
      rw [show ((c :: c2 :: x'') ++ y) = c :: ((c2 :: x'') ++ y) from rfl]
      rw [show ((c2 :: x'') ++ y) = c2 :: (x'' ++ y) from rfl]
      rw [show hasPair a b (c :: c2 :: (x'' ++ y)) =
          ((decide (c = a) && decide (c2 = b)) || hasPair a b (c2 :: (x'' ++ y))) from rfl]
      rw [show hasPair a b (c :: c2 :: x'') =
          ((decide (c = a) && decide (c2 = b)) || hasPair a b (c2 :: x'')) from rfl] at hx
      rcases Bool.or_eq_false_iff.mp hx with ⟨h1, h2⟩
      rw [h1]
      have := ih h2 (by
        intro ⟨hl, hh⟩
        exact hxy ⟨by simpa using hl, hh⟩)
      rw [show ((c2 :: x'') ++ y) = c2 :: (x'' ++ y) from rfl] at this
      rw [this]
      rfl

/-! # The claims placeholder -/

theorem streamMatchPatternsV_str (pats : List SelectPattern) (s : String) :
    streamMatchPatternsV pats (.str s) = .ok (streamMatchPatterns pats s) := rfl

theorem pyJoin_strs (bs : List String) :
    pyJoin (.arr (bs.map .str)) = .ok (String.intercalate "." bs) := by
  have h : ∀ l : List String, strsOfJVals (l.map .str) = .ok l := by
    intro l
    induction l with
    | nil => rfl
    | cons s rest ih => simp [strsOfJVals, ih, Except.map]
  simp [pyJoin, h, Except.map]

theorem dollarTailOk_of_no_newline (l : List Char) (h : '\n' ∉ l) :
    dollarTailOk l = true := by
  unfold dollarTailOk
  have : l.dropWhile (fun x => decide (x ≠ '\n')) = [] := by
    rw [List.dropWhile_eq_nil_iff]
    intro x hx
    simp only [ne_eq, decide_eq_true_eq]
    exact fun he => h (he ▸ hx)
  rw [this]

theorem schemaPropsAt_iff (l : List Char) (h : '\n' ∉ l) :
    schemaPropsAt l = true ↔ "schema.properties.".data <+: l := by
  unfold schemaPropsAt
  rw [Bool.and_eq_true, List.isPrefixOf_iff_prefix]
  constructor
  · exact fun hp => hp.1
  · intro hp
    refine ⟨hp, dollarTailOk_of_no_newline _ fun hc => h ?_⟩
    exact (List.drop_subset 18 l) hc

theorem searchSchemaProps_iff (l : List Char) (h : '\n' ∉ l) :
    searchSchemaProps l = true ↔ "schema.properties.".data <:+: l := by
  induction l with
  | nil =>
    simp only [searchSchemaProps, List.infix_nil]
    constructor
    · intro hf; cases hf
    · intro he; simp at he
  | cons c rest ih =>
    have hrest : '\n' ∉ rest := fun hc => h (List.mem_cons_of_mem _ hc)
    simp only [searchSchemaProps, Bool.or_eq_true]
    rw [schemaPropsAt_iff _ h, ih hrest, List.infix_cons_iff]

instance : LawfulBEq JVal where
  eq_of_beq h := jvalBEq_eq _ _ h
  rfl := jvalBEq_refl _

theorem matchPatternsV_error (v : JVal) (inc exc : List String) (e : PErr)
    (h : matchPatternsV v inc exc = .error e) : e = .typeError := by
  unfold matchPatternsV at h
  split at h
  · simp at h
  · split at h <;> simp_all

theorem streamMatchPatternsV_error (pats : List SelectPattern) (v : JVal) (e : PErr)
    (h : streamMatchPatternsV pats v = .error e) : e = .typeError :=
  matchPatternsV_error v _ _ e h

theorem pyLen_error (v : JVal) (e : PErr) (h : pyLen v = .error e) : e = .typeError := by
  cases v <;> simp_all [pyLen]

theorem findEmptyBc_error (es : List JVal) (e : PErr)
    (h : findEmptyBc es = .error e) : e = .keyError ∨ e = .typeError := by
  induction es with
  | nil => simp [findEmptyBc] at h
  | cons x rest ih =>
    unfold findEmptyBc at h
    split at h
    · split at h
      · simp_all
      · split at h
        · rename_i her
          cases h
          exact .inr (pyLen_error _ _ her)
        · split at h
          · simp at h
          · split at h <;> simp_all
    · cases h
      exact .inr rfl

theorem findBc_error (es : List JVal) (bc : JVal) (e : PErr)
    (h : findBc es bc = .error e) : e = .keyError ∨ e = .typeError := by
  induction es with
  | nil => simp [findBc] at h
  | cons x rest ih =>
    unfold findBc at h
    split at h
    · split at h
      · simp_all
      · split at h
        · simp at h
        · exact ih h
    · cases h
      exact .inr rfl

theorem currentStream_error (st : SelSt) (e : PErr)
    (h : currentStream st = .error e) : e = .keyError ∨ e = .typeError := by
  unfold currentStream at h
  split at h
  · split at h <;> simp_all
  · cases h
    exact .inr rfl

theorem strsOfJVals_error (xs : List JVal) (e : PErr)
    (h : strsOfJVals xs = .error e) : e = .typeError := by
  induction xs with
  | nil => simp [strsOfJVals] at h
  | cons x rest ih =>
    cases x with
    | str s =>
      rw [show strsOfJVals (.str s :: rest) = (strsOfJVals rest).map (s :: ·) from rfl] at h
      cases hr : strsOfJVals rest with
      | ok l => rw [hr] at h; simp [Except.map] at h
      | error e' =>
        rw [hr] at h
        simp only [Except.map] at h
        cases h
        exact ih hr
    | bool b =>
      rw [show strsOfJVals (.bool b :: rest) = .error .typeError from rfl] at h
      injection h with he
      exact he.symm
    | obj fs =>
      rw [show strsOfJVals (.obj fs :: rest) = .error .typeError from rfl] at h
      injection h with he
      exact he.symm
    | arr ys =>
      rw [show strsOfJVals (.arr ys :: rest) = .error .typeError from rfl] at h
      injection h with he
      exact he.symm

theorem pyJoin_error (v : JVal) (e : PErr) (h : pyJoin v = .error e) : e = .typeError := by
  cases v with
  | arr xs =>
    rw [show pyJoin (.arr xs) = (strsOfJVals xs).map (String.intercalate ".") from rfl] at h
    cases hs : strsOfJVals xs with
    | ok l => rw [hs] at h; simp [Except.map] at h
    | error e' =>
      rw [hs] at h
      simp only [Except.map] at h
      cases h
      exact strsOfJVals_error xs e hs
  | str s => simp [pyJoin] at h
  | obj fs => simp [pyJoin] at h
  | bool b => simp_all [pyJoin]

theorem streamNode_no_fatal_keyError (node : JVal) (st : SelSt) :
    streamNode node st ≠ .fatal .keyError := by
  unfold streamNode
  split <;> try simp
  split <;> try simp
  rename_i v _
  cases hm : streamMatchPatternsV st.patterns v with
  | error e =>
    have := streamMatchPatternsV_error st.patterns v e hm
    subst this
    simp
  | ok sel =>
    simp only
    split <;> try simp
    split <;> try simp
    · rename_i her
      have := findEmptyBc_error _ _ her
      rcases this with h | h
      · simp_all
      · subst h; simp
    · split <;> try simp
      split <;> simp

theorem streamMetadataNode_no_fatal_keyError (node : JVal) (st : SelSt) :
    streamMetadataNode node st ≠ .fatal .keyError := by
  unfold streamMetadataNode
  split <;> try simp
  split <;> try simp
  split <;> try simp
  · rename_i her
    have := currentStream_error st _ her
    rcases this with h | h
    · simp_all
    · subst h; simp
  · rename_i v _
    cases hm : streamMatchPatternsV st.patterns v with
    | error e =>
      have := streamMatchPatternsV_error st.patterns v e hm
      subst this
      simp
    | ok sel =>
      simp only
      split <;> simp

theorem propertyNode_no_fatal_keyError (node : JVal) (path : String) (st : SelSt) :
    propertyNode node path st ≠ .fatal .keyError := by
  unfold propertyNode
  split <;> try simp
  · rename_i her
    have := currentStream_error st _ her
    rcases this with h | h
    · simp_all
    · subst h; simp
  · split <;> try simp
    split <;> try simp
    rename_i her
    have := findBc_error _ _ _ her
    rcases this with h | h
    · simp_all
    · subst h; simp

theorem propertyMetadataNode_no_fatal_keyError (node : JVal) (st : SelSt) :
    propertyMetadataNode node st ≠ .fatal .keyError := by
  unfold propertyMetadataNode
  split <;> try simp
  split <;> try simp
  split <;> try simp
  · rename_i her
    have := pyJoin_error _ _ her
    subst this
    simp
  · split <;> simp

theorem searchSchemaProps_false_of_no_pair (l : List Char) (hnl : '\n' ∉ l)
    (h : hasPair 's' '.' l = false) : searchSchemaProps l = false := by
  cases h' : searchSchemaProps l with
  | false => rfl
  | true =>
    exfalso
    have hinf := (searchSchemaProps_iff l hnl).mp h'
    have h2 : ['s', '.'] <:+: l := List.IsInfix.trans (by decide) hinf
    rw [hasPair_of_occurs 's' '.' l h2] at h
    cases h

theorem findallPropsAux_mono : ∀ (f₁ : Nat), ∀ (f₂ : Nat) (l : List Char),
    l.length < f₁ → l.length < f₂ → findallPropsAux f₁ l = findallPropsAux f₂ l := by
  intro f₁
  induction f₁ with
  | zero => intro f₂ l h1 _; omega
  | succ f ih =>
    intro f₂ l h1 h2
    cases f₂ with
    | zero => omega
    | succ f' =>
      cases l with
      | nil => rfl
      | cons c rest =>
        show findallPropsAux (f + 1) (c :: rest) = findallPropsAux (f' + 1) (c :: rest)
        rw [findallPropsAux, findallPropsAux]
        simp only [List.length_cons] at h1 h2
        split
        · dsimp only
          split
          · exact ih f' rest (by omega) (by omega)
          · rw [ih f' ((c :: rest).drop (11 + (((c :: rest).drop 11).takeWhile isWordChar).length))
              (by simp [List.length_drop]; omega) (by simp [List.length_drop]; omega)]
        · exact ih f' rest (by omega) (by omega)

theorem findallProps_cons_skip (c : Char) (rest : List Char)
    (h : "properties.".data.isPrefixOf (c :: rest) = false ∨
      (((c :: rest).drop 11).takeWhile isWordChar).isEmpty = true) :
    findallProps (c :: rest) = findallProps rest := by
  unfold findallProps
  rw [show findallPropsAux ((c :: rest).length + 1) (c :: rest) =
    (if "properties.".data.isPrefixOf (c :: rest) then
      (let w := ((c :: rest).drop 11).takeWhile isWordChar
       if w.isEmpty then findallPropsAux (c :: rest).length rest
       else String.mk w :: findallPropsAux (c :: rest).length ((c :: rest).drop (11 + w.length)))
     else findallPropsAux (c :: rest).length rest) from rfl]
  rcases h with h | h
  · rw [h]
    simp only [Bool.false_eq_true, if_false]
    exact findallPropsAux_mono _ _ rest (by simp) (by simp)
  · split
    · dsimp only
      rw [h]
      simp only [if_true]
      exact findallPropsAux_mono _ _ rest (by simp) (by simp)
    · exact findallPropsAux_mono _ _ rest (by simp) (by simp)

theorem findallProps_append_skip (x : List Char) : ∀ (y : List Char),
    (∀ t, t <:+ x → t ≠ [] → "properties.".data.isPrefixOf (t ++ y) = false) →
    findallProps (x ++ y) = findallProps y := by
  induction x with
  | nil => intro y _; rfl
  | cons c x' ih =>
    intro y h
    rw [show (c :: x') ++ y = c :: (x' ++ y) from rfl]
    rw [findallProps_cons_skip c (x' ++ y) (.inl ?hpre)]
    · exact ih y fun t ht hne => h t (ht.trans (List.suffix_cons c x')) hne
    case hpre =>
      have := h (c :: x') (List.suffix_refl _) (by simp)
      simpa using this

theorem findallProps_nil_of_short (l : List Char) (h : l.length < 11) :
    findallProps l = [] := by
  induction l with
  | nil => rfl
  | cons c rest ih =>
    rw [findallProps_cons_skip c rest (.inl ?hp)]
    · exact ih (by simp at h ⊢; omega)
    case hp =>
      cases hp : "properties.".data.isPrefixOf (c :: rest) with
      | false => rfl
      | true =>
        exfalso
        have := List.IsPrefix.length_le (List.isPrefixOf_iff_prefix.mp hp)
        simp at this h
        omega

theorem findallProps_capture (n : String) (rest : List Char)
    (hn : wordStr n = true)
    (hrest : rest = [] ∨ ∃ r', rest = '.' :: r') :
    findallProps ("properties.".data ++ (n.data ++ rest)) =
      n :: findallProps rest := by
  have hword : ∀ c ∈ n.data, isWordChar c = true := by
    intro c hc
    unfold wordStr at hn
    rw [Bool.and_eq_true] at hn
    exact List.all_eq_true.mp hn.2 c hc
  have hne : n.data ≠ [] := by
    unfold wordStr at hn
    rw [Bool.and_eq_true] at hn
    intro he
    have : n.isEmpty = true := by
      cases n; simp_all [String.isEmpty, String.length]
    simp [this] at hn
  have hl : "properties.".data ++ (n.data ++ rest) =
      'p' :: ("roperties.".data ++ (n.data ++ rest)) := rfl
  rw [hl]
  unfold findallProps
  rw [show findallPropsAux (('p' :: ("roperties.".data ++ (n.data ++ rest))).length + 1)
        ('p' :: ("roperties.".data ++ (n.data ++ rest))) =
    (if "properties.".data.isPrefixOf
        ('p' :: ("roperties.".data ++ (n.data ++ rest))) then
      (let w := (('p' :: ("roperties.".data ++ (n.data ++ rest))).drop 11).takeWhile isWordChar
       if w.isEmpty then
         findallPropsAux ('p' :: ("roperties.".data ++ (n.data ++ rest))).length
           ("roperties.".data ++ (n.data ++ rest))
       else String.mk w ::
         findallPropsAux ('p' :: ("roperties.".data ++ (n.data ++ rest))).length
           (('p' :: ("roperties.".data ++ (n.data ++ rest))).drop (11 + w.length)))
     else findallPropsAux ('p' :: ("roperties.".data ++ (n.data ++ rest))).length
       ("roperties.".data ++ (n.data ++ rest))) from rfl]
  have hpre : "properties.".data.isPrefixOf
      ('p' :: ("roperties.".data ++ (n.data ++ rest))) = true := by
    rw [List.isPrefixOf_iff_prefix]
    exact ⟨n.data ++ rest, by rfl⟩
  rw [hpre]
  simp only [if_true]
  have hdrop11 : ('p' :: ("roperties.".data ++ (n.data ++ rest))).drop 11 =
      n.data ++ rest := by
    rw [show ('p' :: ("roperties.".data ++ (n.data ++ rest))) =
      "properties.".data ++ (n.data ++ rest) from rfl]
    exact List.drop_left "properties.".data (n.data ++ rest)
  rw [hdrop11]
  have htw : (n.data ++ rest).takeWhile isWordChar = n.data := by
    rcases hrest with h | ⟨r', h⟩
    · subst h
      rw [List.append_nil]
      exact takeWhile_all isWordChar n.data hword
    · subst h
      exact takeWhile_all_append isWordChar n.data '.' r' hword (by decide)
  rw [htw]
  have hwne : n.data.isEmpty = false := by
    cases hd : n.data with
    | nil => exact absurd hd hne
    | cons _ _ => rfl
  rw [hwne]
  simp only [Bool.false_eq_true, if_false]
  have hdropw : ('p' :: ("roperties.".data ++ (n.data ++ rest))).drop (11 + n.data.length) =
      rest := by
    rw [show ('p' :: ("roperties.".data ++ (n.data ++ rest))) =
      ("properties.".data ++ n.data) ++ rest from by
        rw [← hl]; simp [List.append_assoc],
      show 11 + n.data.length = ("properties.".data ++ n.data).length from by
        rw [List.length_append, show ("properties.".data).length = 11 from rfl]]
    exact List.drop_left _ rest
  rw [hdropw]
  have hmk : String.mk n.data = n := by cases n; rfl
  rw [hmk]
  congr 1
  exact findallPropsAux_mono _ _ rest (by simp; omega) (by simp)

/-! # The claims -/

/-- **C3** (confirmed).  `_match_patterns(value, include, exclude)` is
true iff `value` glob-matches at least one include pattern and no
exclude pattern; with an empty include list the result is `false` for
every value and every exclude list (no select-everything fallback). -/
theorem c3_match_patterns (value : String) (inc exc : List String) :
    (matchPatterns value inc exc = true ↔
      ((∃ p ∈ inc, fnmatch value p = true) ∧ ∀ p ∈ exc, fnmatch value p = false)) ∧
    matchPatterns value [] exc = false := by
  constructor
  · unfold matchPatterns
    rw [Bool.and_eq_true, Bool.not_eq_true', List.any_eq_false, List.any_eq_true]
    exact Iff.rfl.and (by simp)
  · simp [matchPatterns]

/-- **C5 counterexample**.  The mapping node at path
`.streams[0].schema.properties.id.items` (e.g. the `items` sub-schema of
an array-typed property) is dispatched as a Property node by the code's
`re.search(r"schema\.properties\..*$", path)` test, although its path
does not have the claimed `schema.properties.<name>(.properties.<name>)*`
suffix shape. -/
theorem c5_counterexample :
    searchSchemaProperties ".streams[0].schema.properties.id.items" = true ∧
    specPropertySuffixShape ".streams[0].schema.properties.id.items" = false := by
  constructor <;> rfl

/-- **C5 amended** (corrected).  A mapping node is dispatched as a
Property node exactly when `re.search(r"schema\.properties\..*$", path)`
succeeds, which for newline-free paths is exactly when the substring
`schema.properties.` occurs anywhere in the path — a strictly weaker
condition than the claimed suffix shape. -/
theorem c5_property_dispatch_is_substring (path : String)
    (h : '\n' ∉ path.data) :
    searchSchemaProperties path = true ↔
      "schema.properties.".data <:+: path.data :=
  searchSchemaProps_iff path.data h

/-- Witness for the C5 amended theorem at a concrete path. -/
theorem c5_property_dispatch_is_substring_witness :
    ('\n' ∉ ".s.schema.properties.a.b".data) ∧
      (searchSchemaProperties ".s.schema.properties.a.b" = true ↔
        "schema.properties.".data <:+: ".s.schema.properties.a.b".data) :=
  ⟨by decide, c5_property_dispatch_is_substring ".s.schema.properties.a.b" (by decide)⟩

/-- **C6** (confirmed).  Selecting with `["stream1.*", "!stream1.secret"]`
over a catalog whose stream `stream1` has properties `id` and `secret`
(each with its own property-metadata entry) ends with `id`'s metadata
`"selected"` true and `secret`'s false, even though `stream1.*`
glob-matches `stream1.secret`. -/
theorem c6_negated_rule_overrides_glob :
    runSelect ["stream1.*", "!stream1.secret"] docC6 = .ok docC6Selected ∧
    propertyMatchPatterns (["stream1.*", "!stream1.secret"].map parseSelectPattern)
      "stream1.id" = true ∧
    propertyMatchPatterns (["stream1.*", "!stream1.secret"].map parseSelectPattern)
      "stream1.secret" = false ∧
    fnmatch "stream1.secret" "stream1.*" = true :=
  ⟨rfl, rfl, rfl, rfl⟩

/-- **C7 counterexample**.  On a stream whose `metadata` key precedes its
`schema` key, the first pass appends the entry for `["s1", "id"]` after
the metadata list has been traversed, so the entry ends the first pass
without a `"selected"` field; the second pass visits it and writes
`"selected"`, producing a different document. -/
theorem c7_counterexample :
    runSelect ["s1"] docC7 = .ok docC7Once ∧
    runSelect ["s1"] docC7Once = .ok docC7Twice ∧
    docC7Twice ≠ docC7Once := by
  refine ⟨rfl, rfl, ?_⟩
  decide

/-- **C1 counterexample**.  `stream_node` on a stream with no metadata
sequence (rules `["s1"]`, so the computed stream-level `selected` is
`true`) creates the synthetic entry, but that entry's metadata has no
`"selected"` field at all — contradicting the claim that in the
backfill case the entry's `"selected"` is set to the computed value. -/
theorem c1_counterexample :
    streamNode (.obj [("stream", .str "s1")]) (initSt ["s1"]) = .ok
      (.obj [("stream", .str "s1"), ("metadata", .arr [syntheticStreamEntry]),
             ("selected", .bool true)])
      { patterns := [⟨"s1", "s1", false⟩], hasStream := true,
        streamName := some (.str "s1"), streamMeta := some [syntheticStreamEntry] } ∧
    entryMetaSelected syntheticStreamEntry = none ∧
    streamMatchPatterns [⟨"s1", "s1", false⟩] "s1" = true :=
  ⟨rfl, rfl, rfl⟩

/-- **C1 amended** (corrected).  `stream_node`: if the stream has no
metadata sequence, one is created holding the single synthetic entry
`{breadcrumb: [], metadata: {inclusion: "automatic"}}`; if a sequence
exists but holds no empty-breadcrumb entry, the synthetic entry is
inserted at the front.  In both backfill cases the synthetic entry's
metadata is left without a `"selected"` field — only when an
empty-breadcrumb entry is found directly is its metadata `"selected"`
set to the computed stream-level value.  (The node's own top-level
`"selected"` is always set.) -/
theorem c1_stream_node_backfill (st : SelSt) (fs : List (String × JVal)) (name : String)
    (hstream : jlookup fs "stream" = some (.str name)) :
    (jlookup fs "metadata" = none →
      streamNode (.obj fs) st = .ok
        (.obj (objSet (objSet fs "metadata" (.arr [syntheticStreamEntry])) "selected"
          (.bool (streamMatchPatterns st.patterns name))))
        { st with hasStream := true, streamName := some (.str name),
                  streamMeta := some [syntheticStreamEntry] }) ∧
    (∀ es, jlookup fs "metadata" = some (.arr es) → findEmptyBc es = .ok none →
      streamNode (.obj fs) st = .ok
        (.obj (objSet (objSet fs "metadata" (.arr (syntheticStreamEntry :: es))) "selected"
          (.bool (streamMatchPatterns st.patterns name))))
        { st with hasStream := true, streamName := some (.str name),
                  streamMeta := some (syntheticStreamEntry :: es) }) ∧
    entryMetaSelected syntheticStreamEntry = none ∧
    (∀ es pre efs mfs post, jlookup fs "metadata" = some (.arr es) →
      findEmptyBc es = .ok (some (pre, .obj efs, post)) →
      jlookup efs "metadata" = some (.obj mfs) →
      streamNode (.obj fs) st = .ok
        (.obj (objSet (objSet fs "metadata" (.arr (pre ++
            (.obj (objSet efs "metadata" (.obj (objSet mfs "selected"
              (.bool (streamMatchPatterns st.patterns name)))))) :: post))) "selected"
          (.bool (streamMatchPatterns st.patterns name))))
        { st with hasStream := true, streamName := some (.str name),
                  streamMeta := some (pre ++
            (.obj (objSet efs "metadata" (.obj (objSet mfs "selected"
              (.bool (streamMatchPatterns st.patterns name)))))) :: post) }) := by
  refine ⟨?_, ?_, rfl, ?_⟩
  · intro hmeta
    simp [streamNode, hstream, hmeta, streamMatchPatternsV_str]
  · intro es hmeta hfind
    simp [streamNode, hstream, hmeta, hfind, streamMatchPatternsV_str]
  · intro es pre efs mfs post hmeta hfind hem
    simp [streamNode, hstream, hmeta, hfind, hem, streamMatchPatternsV_str]

/-- Witness for the C1 amended theorem: the no-metadata case at a
concrete stream node. -/
theorem c1_stream_node_backfill_witness :
    streamNode (.obj [("stream", .str "s2")]) (initSt []) = .ok
      (.obj (objSet (objSet [("stream", .str "s2")] "metadata"
          (.arr [syntheticStreamEntry])) "selected"
        (.bool (streamMatchPatterns (initSt []).patterns "s2"))))
      { initSt [] with hasStream := true, streamName := some (.str "s2"),
                       streamMeta := some [syntheticStreamEntry] } :=
  (c1_stream_node_backfill (initSt []) [("stream", .str "s2")] "s2" (by decide)).1
    (by decide)

/-- **C2 counterexample**.  With the single rule `stream1.id` and a
Property-Metadata node whose breadcrumb is `["stream1", "id"]`, the code
writes `selected = true` (it matches the dot-join of the whole
breadcrumb, `"stream1.id"`), while the claimed formula — matching the
join of the breadcrumb elements after the first, `"id"`, against the
same property patterns — yields `false`. -/
theorem c2_counterexample :
    propertyMetadataNode
      (.obj [("breadcrumb", .arr [.str "stream1", .str "id"]), ("metadata", .obj [])])
      { patterns := [⟨"stream1", "stream1.id", false⟩], hasStream := true,
        streamName := some (.str "stream1"), streamMeta := none } = .ok
      (.obj [("breadcrumb", .arr [.str "stream1", .str "id"]),
             ("metadata", .obj [("selected", .bool true)])])
      { patterns := [⟨"stream1", "stream1.id", false⟩], hasStream := true,
        streamName := some (.str "stream1"), streamMeta := none } ∧
    propertyMatchPatterns [⟨"stream1", "stream1.id", false⟩]
      (String.intercalate "." (["stream1", "id"].drop 1)) = false :=
  ⟨rfl, rfl⟩

/-- **C2 amended** (corrected).  `property_metadata_node` writes into
the entry's metadata `"selected"` the value
`matches(propertyPath, includes, excludes)` where `propertyPath` is the
dot-join of **all** the breadcrumb elements, the stream name included
(`".".join(node["breadcrumb"])`), matched against the property patterns
(which themselves keep the stream component). -/
theorem c2_property_path_is_full_breadcrumb (st : SelSt) (fs : List (String × JVal))
    (bs : List String) (mfs : List (String × JVal))
    (hbc : jlookup fs "breadcrumb" = some (.arr (bs.map .str)))
    (hm : jlookup fs "metadata" = some (.obj mfs)) :
    propertyMetadataNode (.obj fs) st = .ok
      (.obj (objSet fs "metadata" (.obj (objSet mfs "selected"
        (.bool (propertyMatchPatterns st.patterns (String.intercalate "." bs))))))) st := by
  simp [propertyMetadataNode, hbc, hm, pyJoin_strs]

/-- Witness for the C2 amended theorem at a concrete entry. -/
theorem c2_property_path_is_full_breadcrumb_witness :
    propertyMetadataNode
      (.obj [("breadcrumb", .arr [.str "a"]), ("metadata", .obj [])]) (initSt []) = .ok
      (.obj (objSet [("breadcrumb", .arr [.str "a"]), ("metadata", .obj [])] "metadata"
        (.obj (objSet [] "selected"
          (.bool (propertyMatchPatterns (initSt []).patterns
            (String.intercalate "." ["a"]))))))) (initSt []) :=
  c2_property_path_is_full_breadcrumb (initSt [])
    [("breadcrumb", .arr [.str "a"]), ("metadata", .obj [])] ["a"] []
    (by decide) (by decide)

/-- **C4** (confirmed).  The stream-level selected value is
`matches(streamName, includes = stream patterns of non-negated rules,
excludes = ∅)`: it is true exactly when some non-negated rule's stream
pattern glob-matches the stream name, negated rules never affect it, and
`stream_node` writes that value both into the directly-found
empty-breadcrumb entry's metadata and into the stream node's own
top-level `"selected"`. -/
theorem c4_stream_selection_ignores_negated (pats : List SelectPattern) (stream : String)
    (st : SelSt) (fs : List (String × JVal)) (name : String)
    (es pre post : List JVal) (efs mfs : List (String × JVal))
    (hstream : jlookup fs "stream" = some (.str name))
    (hmeta : jlookup fs "metadata" = some (.arr es))
    (hfind : findEmptyBc es = .ok (some (pre, .obj efs, post)))
    (hem : jlookup efs "metadata" = some (.obj mfs)) :
    (streamMatchPatterns pats stream = true ↔
      ∃ p ∈ pats, p.negated = false ∧ fnmatch stream p.stream_pattern = true) ∧
    streamMatchPatterns pats stream =
      streamMatchPatterns (pats.filter fun p => !p.negated) stream ∧
    streamNode (.obj fs) st = .ok
      (.obj (objSet (objSet fs "metadata" (.arr (pre ++
          (.obj (objSet efs "metadata" (.obj (objSet mfs "selected"
            (.bool (streamMatchPatterns st.patterns name)))))) :: post))) "selected"
        (.bool (streamMatchPatterns st.patterns name))))
      { st with hasStream := true, streamName := some (.str name),
                streamMeta := some (pre ++ (.obj (objSet efs "metadata"
                  (.obj (objSet mfs "selected"
                    (.bool (streamMatchPatterns st.patterns name)))))) :: post) } := by
  refine ⟨?_, ?_, ?_⟩
  · unfold streamMatchPatterns matchPatterns
    simp only [List.any_nil, Bool.not_false, Bool.and_true, List.any_eq_true,
      List.mem_map, List.mem_filter]
    constructor
    · rintro ⟨q, ⟨p, ⟨hp, hneg⟩, hq⟩, hf⟩
      exact ⟨p, hp, by simpa using hneg, hq ▸ hf⟩
    · rintro ⟨p, hp, hneg, hf⟩
      exact ⟨p.stream_pattern, ⟨p, ⟨hp, by simp [hneg]⟩, rfl⟩, hf⟩
  · unfold streamMatchPatterns
    rw [List.filter_filter]
    simp
  · simp [streamNode, hstream, hmeta, hfind, hem, streamMatchPatternsV_str]

/-- Witness for C4 at a concrete stream node and rule list. -/
theorem c4_stream_selection_ignores_negated_witness :
    (streamMatchPatterns [⟨"s3", "s3.x", true⟩] "s3" = true ↔
      ∃ p ∈ [(⟨"s3", "s3.x", true⟩ : SelectPattern)], p.negated = false ∧
        fnmatch "s3" p.stream_pattern = true) ∧
    streamMatchPatterns [⟨"s3", "s3.x", true⟩] "s3" =
      streamMatchPatterns ([⟨"s3", "s3.x", true⟩].filter fun p => !p.negated) "s3" ∧
    streamNode (.obj [("stream", .str "s3"), ("metadata", .arr [syntheticStreamEntry])])
      (initSt []) = .ok
      (.obj (objSet (objSet [("stream", .str "s3"),
          ("metadata", .arr [syntheticStreamEntry])] "metadata" (.arr ([] ++
          (.obj (objSet [("breadcrumb", .arr []),
            ("metadata", .obj [("inclusion", .str "automatic")])] "metadata" (.obj (objSet
            [("inclusion", .str "automatic")] "selected"
            (.bool (streamMatchPatterns (initSt []).patterns "s3")))))) :: []))) "selected"
        (.bool (streamMatchPatterns (initSt []).patterns "s3"))))
      { initSt [] with hasStream := true, streamName := some (.str "s3"),
                       streamMeta := some ([] ++ (.obj (objSet [("breadcrumb", .arr []),
                         ("metadata", .obj [("inclusion", .str "automatic")])]
                         "metadata" (.obj (objSet [("inclusion", .str "automatic")]
                           "selected" (.bool (streamMatchPatterns (initSt []).patterns
                             "s3")))))) :: []) } :=
  c4_stream_selection_ignores_negated [⟨"s3", "s3.x", true⟩] "s3" (initSt [])
    [("stream", .str "s3"), ("metadata", .arr [syntheticStreamEntry])] "s3"
    [syntheticStreamEntry] [] []
    [("breadcrumb", .arr []), ("metadata", .obj [("inclusion", .str "automatic")])]
    [("inclusion", .str "automatic")]
    (by decide) (by decide) (by decide) (by decide)

/-- **C10** (confirmed).  `CatalogExecutor.execute` never propagates a
`KeyError`: for every node kind, if the dispatched handler raises
`KeyError`, `execute` catches it and returns normally.  In particular a
stream mapping without a `"stream"` key (whose `stream_node` raises
`KeyError` from `current_stream`) is skipped, leaving the node
unchanged; only `self._stream` was already reassigned before the
raise. -/
theorem c10_execute_never_propagates_keyerror :
    (∀ nt node path st, execute nt node path st ≠ .error .keyError) ∧
    execute .stream (.obj [("metadata", .arr [])]) ".streams[0]" (initSt []) =
      .ok (.obj [("metadata", .arr [])],
        { patterns := [], hasStream := true, streamName := none, streamMeta := none }) := by
  constructor
  · intro nt node path st
    unfold execute
    cases hd : dispatchHandler nt node path st with
    | ok n s => simp
    | keyErr n s => simp
    | fatal e =>
      simp only [ne_eq, Except.error.injEq]
      intro he
      subst he
      cases nt <;> simp only [dispatchHandler] at hd
      · exact absurd hd (streamNode_no_fatal_keyError node st)
      · exact absurd hd (streamMetadataNode_no_fatal_keyError node st)
      · exact absurd hd (propertyNode_no_fatal_keyError node path st)
      · exact absurd hd (propertyMetadataNode_no_fatal_keyError node st)
  · rfl

theorem delStream_present (props : List (String × List (String × Bool))) (n : String)
    (h : n ∈ props.map (·.1)) :
    delStream props n = .ok (props.filter fun sp => sp.1 ≠ n) := by
  unfold delStream
  rw [if_pos]
  rw [List.any_eq_true]
  obtain ⟨sp, hsp, hn⟩ := List.mem_map.mp h
  exact ⟨sp, hsp, by simp [hn]⟩

theorem foldDelPairs (fps : List (String × Bool))
    (props : List (String × List (String × Bool)))
    (hnd : (fps.map (·.1)).Nodup)
    (hmem : ∀ p ∈ fps, p.1 ∈ props.map (·.1)) :
    fps.foldlM (fun acc p => delStream acc p.1) props =
      .ok (props.filter fun sp => !(fps.map (·.1)).contains sp.1) := by
  induction fps generalizing props with
  | nil =>
    have h1 : (props.filter fun sp =>
        !((List.map (fun x => x.1) ([] : List (String × Bool))).contains sp.1)) = props :=
      List.filter_eq_self.mpr (by intro a _; simp)
    rw [h1]
    rfl
  | cons p ps ih =>
    rw [show (p :: ps).foldlM (fun acc q => delStream acc q.1) props =
          (delStream props p.1).bind (ps.foldlM (fun acc q => delStream acc q.1)) from rfl]
    rw [delStream_present props p.1 (hmem p (List.mem_cons_self p ps))]
    rw [show Except.bind (Except.ok (props.filter fun sp => sp.1 ≠ p.1))
          (ps.foldlM (fun acc q => delStream acc q.1)) =
        ps.foldlM (fun acc q => delStream acc q.1)
          (props.filter fun sp => sp.1 ≠ p.1) from rfl]
    have hnd' : (ps.map (·.1)).Nodup := (List.nodup_cons.mp hnd).2
    have hp_notin : p.1 ∉ ps.map (·.1) := (List.nodup_cons.mp hnd).1
    have hmem' : ∀ q ∈ ps, q.1 ∈ (props.filter fun sp => sp.1 ≠ p.1).map (·.1) := by
      intro q hq
      have hq1 : q.1 ∈ props.map (·.1) := hmem q (List.mem_cons_of_mem p hq)
      obtain ⟨sp, hsp, hn⟩ := List.mem_map.mp hq1
      refine List.mem_map.mpr ⟨sp, List.mem_filter.mpr ⟨hsp, ?_⟩, hn⟩
      have : q.1 ≠ p.1 := fun he => hp_notin (he ▸ List.mem_map.mpr ⟨q, hq, rfl⟩)
      simp [hn, this]
    rw [ih _ hnd' hmem']
    rw [List.filter_filter]
    refine congrArg Except.ok (List.filter_congr ?_)
    intro sp _
    by_cases hx : sp.1 = p.1 <;> simp [hx, List.contains_cons]

/-- **C9** (confirmed).  `is_node_selected` is true iff the node's
metadata mapping has `inclusion = "automatic"` or a true `"selected"`
(false when the `"metadata"` key is absent); and `selected_properties`
drops every stream recorded with a `(name, false)` pair — regardless of
its properties — and maps each remaining stream to exactly the property
names recorded with a true pair. -/
theorem c9_selected_listing (fs mfs : List (String × JVal)) (b : Bool)
    (streams : List (String × Bool)) (props : List (String × List (String × Bool)))
    (hnd : ((streams.filter fun p => !p.2).map (·.1)).Nodup)
    (hmem : ∀ p ∈ streams, p.2 = false → p.1 ∈ props.map (·.1)) :
    (jlookup fs "metadata" = none → isNodeSelected (.obj fs) = .ok false) ∧
    (jlookup fs "metadata" = some (.obj mfs) → jlookup mfs "selected" = some (.bool b) →
      (isNodeSelected (.obj fs) = .ok true ↔
        jlookup mfs "inclusion" = some (.str "automatic") ∨ b = true)) ∧
    (jlookup fs "metadata" = some (.obj mfs) → jlookup mfs "selected" = none →
      (isNodeSelected (.obj fs) = .ok true ↔
        jlookup mfs "inclusion" = some (.str "automatic"))) ∧
    selectedProperties streams props = .ok
      ((props.filter fun sp => !streams.contains (sp.1, false)).map
        fun sp => (sp.1, (sp.2.filter (·.2)).map (·.1))) := by
  refine ⟨?_, ?_, ?_, ?_⟩
  · intro h
    simp [isNodeSelected, h]
  · intro h hsel
    simp [isNodeSelected, h, hsel, pyTruthy]
  · intro h hsel
    simp [isNodeSelected, h, hsel, pyTruthy]
  · have hmem' : ∀ p ∈ (streams.filter fun p => !p.2), p.1 ∈ props.map (·.1) := by
      intro p hp
      have := List.mem_filter.mp hp
      exact hmem p this.1 (by simpa using this.2)
    rw [show selectedProperties streams props =
        ((streams.filter fun p => !p.2).foldlM
          (fun acc p => delStream acc p.1) props).bind
          (fun pruned => .ok (pruned.map fun sp =>
            (sp.1, (sp.2.filter (·.2)).map (·.1)))) from rfl]
    rw [foldDelPairs _ _ hnd hmem']
    rw [show Except.bind (Except.ok (props.filter fun sp =>
          !((streams.filter fun p => !p.2).map (·.1)).contains sp.1))
          (fun pruned => Except.ok (pruned.map fun sp =>
            (sp.1, (sp.2.filter (·.2)).map (·.1)))) =
        Except.ok ((props.filter fun sp =>
          !((streams.filter fun p => !p.2).map (·.1)).contains sp.1).map fun sp =>
            (sp.1, (sp.2.filter (·.2)).map (·.1))) from rfl]
    refine congrArg Except.ok (congrArg _ (List.filter_congr ?_))
    intro sp _
    have hiff : sp.1 ∈ (streams.filter fun p => !p.2).map (·.1) ↔
        (sp.1, false) ∈ streams := by
      constructor
      · intro hx
        obtain ⟨q, hq, hq1⟩ := List.mem_map.mp hx
        have hqf := List.mem_filter.mp hq
        have hq2 : q.2 = false := by simpa using hqf.2
        have hqe : q = (sp.1, false) := by
          cases q
          simp_all
        exact hqe ▸ hqf.1
      · intro hx
        exact List.mem_map.mpr ⟨(sp.1, false), List.mem_filter.mpr ⟨hx, by simp⟩, rfl⟩
    simp [List.contains, List.elem_eq_mem, hiff]

/-- Witness for C9 at a concrete visitor state: stream `a` recorded
selected, stream `b` recorded unselected (despite its property `z`
being recorded selected). -/
theorem c9_selected_listing_witness :
    selectedProperties [("a", true), ("b", false)]
      [("a", [("x", true), ("y", false)]), ("b", [("z", true)])] = .ok
      (([("a", [("x", true), ("y", false)]), ("b", [("z", true)])].filter
          fun sp => !([("a", true), ("b", false)] : List (String × Bool)).contains
            (sp.1, false)).map
        fun sp => (sp.1, (sp.2.filter (·.2)).map (·.1))) :=
  (c9_selected_listing [] [] false [("a", true), ("b", false)]
    [("a", [("x", true), ("y", false)]), ("b", [("z", true)])]
    (by decide) (by decide)).2.2.2

end Catalog
